import Mathlib

/-!
Verification of the federation composition core of the repository
(`packages/apollo-graphql/src/federation`): a shallow embedding of
`composeServices.ts`, `utils.ts` and `directives.ts`, together with theorems
settling the specification claims about them.

JavaScript plain objects used as string-keyed maps are embedded as association
lists with JavaScript assignment semantics: assigning to an existing key
updates it in place (keeping its position), assigning to a fresh key appends
it.  A thrown JavaScript exception is embedded as `none` in an `Option`
result.
-/

set_option autoImplicit false

namespace ApolloFederation

/-- A GraphQL AST argument value: the embedding only distinguishes string
values from every other value kind, which is all
`composeServices.ts` inspects (`isStringValueNode`). -/
inductive ValueNode where
  | stringValue (s : String)
  | otherValue
deriving DecidableEq

/-- An argument node of a directive occurrence (`name: value`). -/
structure ArgumentNode where
  name : String
  value : ValueNode
deriving DecidableEq

/-- A directive occurrence on a type or field.  In the GraphQL AST the
`arguments` property is optional, so it is an `Option`; the parser produces
`some []` for a directive written without parentheses. -/
structure DirectiveNode where
  name : String
  arguments : Option (List ArgumentNode)
deriving DecidableEq

/-- A field definition (also standing in for input-value definitions, which
the source treats uniformly). -/
structure FieldDefinitionNode where
  name : String
  directives : List DirectiveNode
deriving DecidableEq

/-- An enum value definition. -/
structure EnumValueDefinitionNode where
  name : String
  directives : List DirectiveNode
deriving DecidableEq

/-- The kinds of named-type definitions/extensions that appear in
`composeServices.ts` (`Kind.OBJECT_TYPE_DEFINITION`, … ). -/
inductive TypeDefKind where
  | objectType
  | interfaceType
  | unionType
  | scalarType
  | enumType
  | inputObjectType
deriving DecidableEq

/-- A base type-definition node (`TypeDefinitionNode`).  `fields` is present
for object-like kinds, `values` for enums; both are optional in the AST. -/
structure TypeDefinitionNode where
  kind : TypeDefKind
  name : String
  directives : List DirectiveNode
  fields : Option (List FieldDefinitionNode)
  values : Option (List EnumValueDefinitionNode)
deriving DecidableEq

/-- A type-extension node (`TypeExtensionNode`), with the same shape as base
definitions. -/
structure TypeExtensionNode where
  kind : TypeDefKind
  name : String
  directives : List DirectiveNode
  fields : Option (List FieldDefinitionNode)
  values : Option (List EnumValueDefinitionNode)
deriving DecidableEq

/-- A top-level definition of an SDL document: a type definition, a type
extension, or anything else (operation definitions, directive definitions, …)
which `buildMapsFromServiceList` ignores. -/
inductive DefinitionNode where
  | typeDef (node : TypeDefinitionNode)
  | typeExt (node : TypeExtensionNode)
  | otherDefinition
deriving DecidableEq

/-- A parsed SDL document (`DocumentNode`). -/
structure DocumentNode where
  definitions : List DefinitionNode
deriving DecidableEq

/-- A service fragment (`ServiceDefinition` in `types.ts`). -/
structure ServiceDefinition where
  typeDefs : DocumentNode
  name : String
deriving DecidableEq

/-! ## JavaScript object maps as association lists -/

/-- A JavaScript object used as a string-keyed map. -/
abbrev AssocMap (α : Type) : Type := List (String × α)

namespace AssocMap

/-- Property read `m[k]`: first (and, by construction, only) binding wins. -/
def lookup {α : Type} : AssocMap α → String → Option α
  | [], _ => none
  | (k, v) :: rest, key => if k = key then some v else lookup rest key

/-- Property write `m[k] = v`: update in place if the key exists, else append
(JavaScript objects keep the original key position on update). -/
def insert {α : Type} : AssocMap α → String → α → AssocMap α
  | [], key, v => [(key, v)]
  | (k, w) :: rest, key, v =>
      if k = key then (k, v) :: rest else (k, w) :: insert rest key v

/-- `Object.keys m`. -/
def keys {α : Type} (m : AssocMap α) : List String :=
  m.map Prod.fst

end AssocMap

/-! ## `utils.ts` -/

/-- `isStringValueNode` from `utils.ts`. -/
def isStringValueNode : ValueNode → Bool
  | .stringValue _ => true
  | .otherValue => false

/-- `mapFieldNamesToServiceName` from `utils.ts`: build the map
`(fieldName : serviceName)` for each field, later fields overwriting
earlier ones of the same name. -/
def mapFieldNamesToServiceName {α : Type} (getName : α → String)
    (fields : List α) (serviceName : String) : AssocMap String :=
  fields.foldl (fun prev next => AssocMap.insert prev (getName next) serviceName) []

/-- `findDirectivesOnTypeOrField` from `utils.ts`, applied to the (optional)
directive list of a node: filter the directives bearing the given name,
returning `[]` for an absent node or absent list. -/
def findDirectivesOnTypeOrField (directives : Option (List DirectiveNode))
    (directiveName : String) : List DirectiveNode :=
  match directives with
  | some ds => ds.filter (fun d => d.name = directiveName)
  | none => []

/-- `stripExternalFieldsFromTypeDefinition` from `utils.ts`: on
`OBJECT_TYPE_DEFINITION` and `OBJECT_TYPE_EXTENSION` nodes that carry a field
list, drop every field annotated with an `external` directive.  All other
node kinds (including input objects and interfaces) pass through unchanged. -/
def stripExternalFieldsFromTypeDefinition : DefinitionNode → DefinitionNode
  | .typeDef node =>
      if node.kind = .objectType then
        match node.fields with
        | some fs =>
            let kept := fs.filter (fun field =>
              (findDirectivesOnTypeOrField (some field.directives) "external").length = 0)
            .typeDef { node with fields := some kept }
        | none => .typeDef node
      else .typeDef node
  | .typeExt node =>
      if node.kind = .objectType then
        match node.fields with
        | some fs =>
            let kept := fs.filter (fun field =>
              (findDirectivesOnTypeOrField (some field.directives) "external").length = 0)
            .typeExt { node with fields := some kept }
        | none => .typeExt node
      else .typeExt node
  | .otherDefinition => .otherDefinition

/-- Modelled from the spec: `parseSelections` of `utils.ts` delegates to the
GraphQL reference parser (not part of this repository), wrapping the `fields`
string of a directive in a synthetic query and returning its selections.  The
model accepts a string made of name characters and spaces containing at least
one name character, and returns it as a one-element selection list; any other
string makes the synthetic query unparseable, which is a thrown error,
embedded as `none`. -/
def parseSelections (source : String) : Option (List String) :=
  let cs := source.toList
  if cs.all (fun c => c.isAlphanum || c = '_' || c = ' ') && cs.any (fun c => c ≠ ' ') then
    some [source]
  else
    none

/-! ## `directives.ts` (the Directive Registry) -/

/-- A directive declaration from the Directive Registry; `argNames` lists the
declared argument names (each of type `String!` in the source). -/
structure GraphQLDirective where
  name : String
  locations : List String
  argNames : List String
deriving DecidableEq

/-- `KeyDirective`: `key(fields: String!)` on objects. -/
def KeyDirective : GraphQLDirective :=
  { name := "key", locations := ["OBJECT"], argNames := ["fields"] }

/-- `ExternalDirective`: `external` on objects and fields. -/
def ExternalDirective : GraphQLDirective :=
  { name := "external", locations := ["OBJECT", "FIELD_DEFINITION"], argNames := [] }

/-- `RequiresDirective`: `requires(fields: String!)` on fields. -/
def RequiresDirective : GraphQLDirective :=
  { name := "requires", locations := ["FIELD_DEFINITION"], argNames := ["fields"] }

/-- `ProvidesDirective` as it is written in the source: the constant is called
`ProvidesDirective`, but its `name` property reads `"requires"`
(`directives.ts`, the fourth `GraphQLDirective`). -/
def ProvidesDirective : GraphQLDirective :=
  { name := "requires", locations := ["FIELD_DEFINITION"], argNames := ["fields"] }

/-- The default export of `directives.ts`. -/
def federationDirectives : List GraphQLDirective :=
  [KeyDirective, ExternalDirective, RequiresDirective, ProvidesDirective]

/-! ## `buildMapsFromServiceList` -/

/-- One entry of `typeToServiceMap`.  `serviceName` distinguishes a property
that is absent (`none`), set to `null` (`some none`), and set to a service
name (`some (some s)`). -/
structure TypeToServiceEntry where
  serviceName : Option (Option String)
  extensionFieldsToOwningServiceMap : AssocMap String
deriving DecidableEq

/-- The three maps built by `buildMapsFromServiceList`. -/
structure ServiceMaps where
  typeToServiceMap : AssocMap TypeToServiceEntry
  definitionsMap : AssocMap (List TypeDefinitionNode)
  extensionsMap : AssocMap (List TypeExtensionNode)
deriving DecidableEq

/-- The base-definition branch of the scan (lines 78–103 of
`composeServices.ts`): record the service as owner (last declaration wins)
and append the definition to the definitions map. -/
def addBaseTypeDefinition (maps : ServiceMaps) (serviceName : String)
    (node : TypeDefinitionNode) : ServiceMaps :=
  let typeName := node.name
  let tts :=
    match AssocMap.lookup maps.typeToServiceMap typeName with
    | some entry =>
        AssocMap.insert maps.typeToServiceMap typeName
          { entry with serviceName := some (some serviceName) }
    | none =>
        AssocMap.insert maps.typeToServiceMap typeName
          { serviceName := some (some serviceName),
            extensionFieldsToOwningServiceMap := [] }
  let defs :=
    match AssocMap.lookup maps.definitionsMap typeName with
    | some list => AssocMap.insert maps.definitionsMap typeName (list ++ [node])
    | none => AssocMap.insert maps.definitionsMap typeName [node]
  { maps with typeToServiceMap := tts, definitionsMap := defs }

/-- The JavaScript object-spread merge of two maps: keys of `old` first, then
the new keys of `fresh` appended, with `fresh` winning on overlap. -/
def spreadMerge (old fresh : AssocMap String) : AssocMap String :=
  fresh.foldl (fun acc kv => AssocMap.insert acc kv.1 kv.2) old

/-- The extension-field bookkeeping shared by the object/input-object branch
and the enum branch (lines 126–135 and 146–155): merge the new field-owner
map into the entry, creating an entry without a `serviceName` when needed. -/
def addExtensionFieldOwners (maps : ServiceMaps) (typeName : String)
    (fields : AssocMap String) : ServiceMaps :=
  match AssocMap.lookup maps.typeToServiceMap typeName with
  | some entry =>
      let entry' := { entry with
        extensionFieldsToOwningServiceMap :=
          spreadMerge entry.extensionFieldsToOwningServiceMap fields }
      { maps with
        typeToServiceMap := AssocMap.insert maps.typeToServiceMap typeName entry' }
  | none =>
      let entry' : TypeToServiceEntry :=
        { serviceName := none, extensionFieldsToOwningServiceMap := fields }
      { maps with
        typeToServiceMap := AssocMap.insert maps.typeToServiceMap typeName entry' }

/-- Lines 163–167: append the extension node to the extensions map. -/
def pushExtension (maps : ServiceMaps) (node : TypeExtensionNode) : ServiceMaps :=
  let exts :=
    match AssocMap.lookup maps.extensionsMap node.name with
    | some list => AssocMap.insert maps.extensionsMap node.name (list ++ [node])
    | none => AssocMap.insert maps.extensionsMap node.name [node]
  { maps with extensionsMap := exts }

/-- The inner `for (const definition of typeDefs.definitions)` loop of
`buildMapsFromServiceList` for one service.  Note that
`if (!definition.fields) break;` (and the analogous check on `values`) is a
`break`: it abandons the remaining definitions of the whole service, and the
node that triggered it is not pushed onto the extensions map either. -/
def processServiceDefinitions (serviceName : String) :
    List DefinitionNode → ServiceMaps → ServiceMaps
  | [], maps => maps
  | d :: rest, maps =>
    match stripExternalFieldsFromTypeDefinition d with
    | .typeDef node =>
        processServiceDefinitions serviceName rest
          (addBaseTypeDefinition maps serviceName node)
    | .typeExt node =>
        if node.kind = .objectType ∨ node.kind = .inputObjectType then
          match node.fields with
          | none => maps
          | some fs =>
              processServiceDefinitions serviceName rest
                (pushExtension
                  (addExtensionFieldOwners maps node.name
                    (mapFieldNamesToServiceName FieldDefinitionNode.name fs serviceName))
                  node)
        else if node.kind = .enumType then
          match node.values with
          | none => maps
          | some vs =>
              processServiceDefinitions serviceName rest
                (pushExtension
                  (addExtensionFieldOwners maps node.name
                    (mapFieldNamesToServiceName EnumValueDefinitionNode.name vs serviceName))
                  node)
        else
          processServiceDefinitions serviceName rest (pushExtension maps node)
    | .otherDefinition => processServiceDefinitions serviceName rest maps

/-- The empty object-type definition synthesized for an extension-only type
name (lines 179–185). -/
def emptyFieldsObjectDefinition (typeName : String) : TypeDefinitionNode :=
  { kind := .objectType, name := typeName, directives := [],
    fields := some [], values := none }

/-- The final loop of `buildMapsFromServiceList` (lines 177–191): for every
extension-map key without a base definition, synthesize an empty object
definition and set the ownership entry's `serviceName` to `null`.  When no
ownership entry exists — which happens exactly when every extension of the
name is of scalar, union, or interface kind — the assignment
`typeToServiceMap[extensionTypeName].serviceName = null` dereferences
`undefined` and throws; this is embedded as `none`. -/
def synthesizeMissingBaseTypes : List String → ServiceMaps → Option ServiceMaps
  | [], maps => some maps
  | typeName :: rest, maps =>
    match AssocMap.lookup maps.definitionsMap typeName with
    | some _ => synthesizeMissingBaseTypes rest maps
    | none =>
      let defs := AssocMap.insert maps.definitionsMap typeName
        [emptyFieldsObjectDefinition typeName]
      match AssocMap.lookup maps.typeToServiceMap typeName with
      | none => none
      | some entry =>
          synthesizeMissingBaseTypes rest
            { maps with
              definitionsMap := defs,
              typeToServiceMap :=
                AssocMap.insert maps.typeToServiceMap typeName
                  { entry with serviceName := some none } }

/-- The outer `for (const { typeDefs, name: serviceName } of serviceList)`
loop (lines 73–170). -/
def scanServices (serviceList : List ServiceDefinition) (maps : ServiceMaps) :
    ServiceMaps :=
  serviceList.foldl
    (fun maps s => processServiceDefinitions s.name s.typeDefs.definitions maps)
    maps

/-- `buildMapsFromServiceList` from `composeServices.ts`. -/
def buildMapsFromServiceList (serviceList : List ServiceDefinition) :
    Option ServiceMaps :=
  let maps := scanServices serviceList
    { typeToServiceMap := [], definitionsMap := [], extensionsMap := [] }
  synthesizeMissingBaseTypes (AssocMap.keys maps.extensionsMap) maps

/-! ## The composed schema (Schema Assembler)

The schema-construction library (`GraphQLSchema`, `extendSchema`,
`validateSDL`) is not part of this repository; the definitions in this
section model exactly the slice of its behaviour that
`buildSchemaFromDefinitionsAndExtensions` relies on, following the spec's
description and the recorded behaviour in the repository's own test file
(`__tests__/composeServices.test.ts`). -/

/-- Federation metadata attached to a named type (`FederationType` in
`types.ts`). -/
structure FederationType where
  serviceName : Option (Option String)
  keys : Option (List (List String))
deriving DecidableEq

/-- Federation metadata attached to a field (`FederationField`). -/
structure FederationField where
  serviceName : Option (Option String)
  requires : Option (List String)
  provides : Option (List String)
deriving DecidableEq

/-- A field of a composed-schema type, with its AST node and federation
metadata. -/
structure GraphQLField where
  name : String
  astNode : FieldDefinitionNode
  federation : FederationField
deriving DecidableEq

/-- A named type of the composed schema. -/
structure GraphQLNamedType where
  name : String
  kind : TypeDefKind
  astNode : Option TypeDefinitionNode
  fields : AssocMap GraphQLField
  federation : FederationType
deriving DecidableEq

/-- The composed schema: its named types and its registered directives. -/
structure GraphQLSchema where
  types : AssocMap GraphQLNamedType
  directives : List GraphQLDirective
deriving DecidableEq

/-- A structural validation error. -/
structure GraphQLError where
  message : String
deriving DecidableEq

/-- A freshly built field carries no federation metadata. -/
def fieldFromFieldDefinition (f : FieldDefinitionNode) : GraphQLField :=
  { name := f.name, astNode := f,
    federation := { serviceName := none, requires := none, provides := none } }

/-- Insert a list of AST fields into a field map, later fields of the same
name replacing earlier ones in place. -/
def insertFields (m : AssocMap GraphQLField) (fs : List FieldDefinitionNode) :
    AssocMap GraphQLField :=
  fs.foldl (fun acc f => AssocMap.insert acc f.name (fieldFromFieldDefinition f)) m

/-- Modelled from the spec: the named type the library builds from one base
type-definition node. -/
def typeFromDefinition (node : TypeDefinitionNode) : GraphQLNamedType :=
  { name := node.name, kind := node.kind, astNode := some node,
    fields := insertFields [] (node.fields.getD []),
    federation := { serviceName := none, keys := none } }

/-- Modelled from the spec: `extendSchema(schema, definitionsDocument,
assumeValidSDL)` for a document of base type definitions.  Per the library's
keyed type map — and the repository test `handles collisions of base types as
expected (newest takes precedence)` — a later definition of an already-present
type name replaces the earlier one wholesale. -/
def extendSchemaWithDefinitions (schema : GraphQLSchema)
    (defs : List TypeDefinitionNode) : GraphQLSchema :=
  let ts := defs.foldl
    (fun ts node => AssocMap.insert ts node.name (typeFromDefinition node))
    schema.types
  { schema with types := ts }

/-- Modelled from the spec: applying one type-extension node to the type map.
Extension fields are appended to the target type's field map, a same-named
field replacing the existing one in place (the merge's own overwrite rule);
an extension whose target is missing is ignored (this never happens after the
Phantom-Base Synthesizer ran). -/
def applyExtension (ts : AssocMap GraphQLNamedType) (ext : TypeExtensionNode) :
    AssocMap GraphQLNamedType :=
  match AssocMap.lookup ts ext.name with
  | none => ts
  | some t =>
      AssocMap.insert ts ext.name
        { t with fields := insertFields t.fields (ext.fields.getD []) }

/-- Modelled from the spec: `extendSchema(schema, extensionsDocument,
assumeValidSDL)`. -/
def extendSchemaWithExtensions (schema : GraphQLSchema)
    (exts : List TypeExtensionNode) : GraphQLSchema :=
  { schema with types := exts.foldl applyExtension schema.types }

/-- First occurrence check used by the modelled validator. -/
def duplicatedNames (names : List String) : List String :=
  (names.foldl (fun acc n => if n ∈ acc then acc else acc ++ [n]) []).filter
    (fun n => 2 ≤ names.count n)

/-- Modelled from the spec: `validateSDL(definitionsDocument, schema)` — the
definitions pass reports duplicate type names and duplicate field names, as
in the recorded test snapshots. -/
def validateDefinitionsDocument (defs : List TypeDefinitionNode) :
    List GraphQLError :=
  let typeErrors := (duplicatedNames (defs.map TypeDefinitionNode.name)).map
    (fun n => GraphQLError.mk ("There can be only one type named " ++ n ++ "."))
  let fieldOccurrences := defs.foldl
    (fun acc d => acc ++ (d.fields.getD []).map (fun f => d.name ++ "." ++ f.name)) []
  let fieldErrors := (duplicatedNames fieldOccurrences).map
    (fun s => GraphQLError.mk ("Field " ++ s ++ " can only be defined once."))
  typeErrors ++ fieldErrors

/-- Modelled from the spec: `validateSDL(extensionsDocument, schema)` — the
extensions pass reports extension fields that already exist on the (already
definition-extended) schema. -/
def validateExtensionsDocument (schema : GraphQLSchema)
    (exts : List TypeExtensionNode) : List GraphQLError :=
  exts.foldl
    (fun acc ext =>
      match AssocMap.lookup schema.types ext.name with
      | none => acc
      | some t =>
          acc ++ ((ext.fields.getD []).filter
              (fun f => (AssocMap.lookup t.fields f.name).isSome)).map
            (fun f => GraphQLError.mk
              ("Field " ++ ext.name ++ "." ++ f.name ++
                " already exists in the schema.")))
    []

/-- The result record of `buildSchemaFromDefinitionsAndExtensions` and of
`composeServices`. -/
structure SchemaAndErrors where
  schema : GraphQLSchema
  errors : List GraphQLError
deriving DecidableEq

/-- The blank schema of line 204: no types, pre-registered with
`federationDirectives`. -/
def initialComposedSchema : GraphQLSchema :=
  { types := [], directives := federationDirectives }

/-- `Object.values(m).flat()`. -/
def flattenValues {α : Type} (m : AssocMap (List α)) : List α :=
  m.foldl (fun acc kv => acc ++ kv.2) []

/-- `buildSchemaFromDefinitionsAndExtensions` from `composeServices.ts`:
validate the definitions document, extend, validate the extensions document
against the extended schema, extend again; the two validation passes are
concatenated in order, and both extensions happen regardless of the errors
found. -/
def buildSchemaFromDefinitionsAndExtensions
    (definitionsMap : AssocMap (List TypeDefinitionNode))
    (extensionsMap : AssocMap (List TypeExtensionNode)) : SchemaAndErrors :=
  let definitionsDocument := flattenValues definitionsMap
  let errors := validateDefinitionsDocument definitionsDocument
  let schema := extendSchemaWithDefinitions initialComposedSchema definitionsDocument
  let extensionsDocument := flattenValues extensionsMap
  let errors := errors ++ validateExtensionsDocument schema extensionsDocument
  let schema := extendSchemaWithExtensions schema extensionsDocument
  { schema := schema, errors := errors }

/-! ## `addFederationMetadataToSchemaNodes` (Metadata Annotator) -/

/-- The `keyDirectives.map(...)` step of lines 266–272: for each `key`
occurrence, `keyDirective.arguments && isStringValueNode(keyDirective.arguments[0].value)`
selects string-valued first arguments; an occurrence whose `arguments`
property is present but empty makes `arguments[0].value` dereference
`undefined` and throw (embedded as `none` for the whole computation), and a
`fields` string the selection parser rejects throws as well.  Occurrences
mapped to `null` are retained here and filtered out by the caller. -/
def collectKeySelections : List DirectiveNode → Option (List (Option (List String)))
  | [] => some []
  | d :: rest =>
    match d.arguments with
    | none => (collectKeySelections rest).map (fun l => none :: l)
    | some [] => none
    | some (a :: _) =>
      match a.value with
      | .stringValue s =>
          match parseSelections s with
          | none => none
          | some sels => (collectKeySelections rest).map (fun l => some sels :: l)
      | .otherValue => (collectKeySelections rest).map (fun l => none :: l)

/-- The per-occurrence mapping of lines 266–272 as seen through the caller's
`.filter(isNotNullOrUndefined)`: the selection set a `key` occurrence
contributes when it is usable (`arguments` present and non-empty with a
string-valued first argument whose `fields` string parses), and `none` when
the occurrence is dropped (`arguments` absent, or a non-string first
argument).  On the two throwing shapes — `arguments` present but empty, or an
unparseable `fields` string — `collectKeySelections` returns `none` for the
whole run, so the value chosen here is never observed on a completed run. -/
def usableKeySelection (d : DirectiveNode) : Option (List String) :=
  match d.arguments with
  | none => none
  | some [] => none
  | some (a :: _) =>
    match a.value with
    | .stringValue s => parseSelections s
    | .otherValue => none

/-- Lines 257–275: on an object type, collect the usable `key` occurrences of
its AST node and set `federation.keys` (always to a list, possibly empty). -/
def annotateObjectTypeKeys (t : GraphQLNamedType) : Option GraphQLNamedType :=
  let keyDirectives :=
    findDirectivesOnTypeOrField (t.astNode.map TypeDefinitionNode.directives) "key"
  (collectKeySelections keyDirectives).map
    (fun raw =>
      { t with federation := { t.federation with keys := some (raw.filterMap id) } })

/-- Lines 277–295 for a single field: attach `federation.provides` when the
field carries a `provides` directive whose first argument is a string; a
`provides` occurrence with an empty `arguments` list, or an unparseable
`fields` string, throws. -/
def annotateFieldProvides (f : GraphQLField) : Option GraphQLField :=
  match findDirectivesOnTypeOrField (some f.astNode.directives) "provides" with
  | [] => some f
  | d :: _ =>
    match d.arguments with
    | none => some f
    | some [] => none
    | some (a :: _) =>
      match a.value with
      | .stringValue s =>
          (parseSelections s).map
            (fun sels =>
              { f with federation := { f.federation with provides := some sels } })
      | .otherValue => some f

/-- The `provides` pass over all fields of an object type. -/
def annotateFieldsProvides : AssocMap GraphQLField → Option (AssocMap GraphQLField)
  | [] => some []
  | (k, f) :: rest =>
    match annotateFieldProvides f with
    | none => none
    | some f' =>
        match annotateFieldsProvides rest with
        | none => none
        | some rest' => some ((k, f') :: rest')

/-- Lines 303–332: walk `extensionFieldsToOwningServiceMap`; on object types,
set each named field's `federation.serviceName` and, when the field carries a
`requires` directive with a string first argument, its `federation.requires`.
Looking up a field name that is absent from the type dereferences `undefined`
and throws, as does a `requires` occurrence with an empty `arguments` list or
an unparseable `fields` string. -/
def annotateExtensionFields :
    GraphQLNamedType → AssocMap String → Option GraphQLNamedType
  | t, [] => some t
  | t, (fieldName, extendingServiceName) :: rest =>
    if t.kind = .objectType then
      match AssocMap.lookup t.fields fieldName with
      | none => none
      | some f =>
        let f := { f with federation :=
          { f.federation with serviceName := some (some extendingServiceName) } }
        match findDirectivesOnTypeOrField (some f.astNode.directives) "requires" with
        | [] =>
            annotateExtensionFields
              { t with fields := AssocMap.insert t.fields fieldName f } rest
        | d :: _ =>
          match d.arguments with
          | none =>
              annotateExtensionFields
                { t with fields := AssocMap.insert t.fields fieldName f } rest
          | some [] => none
          | some (a :: _) =>
            match a.value with
            | .stringValue s =>
                match parseSelections s with
                | none => none
                | some sels =>
                    let f := { f with federation :=
                      { f.federation with requires := some sels } }
                    annotateExtensionFields
                      { t with fields := AssocMap.insert t.fields fieldName f } rest
            | .otherValue =>
                annotateExtensionFields
                  { t with fields := AssocMap.insert t.fields fieldName f } rest
    else
      annotateExtensionFields t rest

/-- The body of the outer loop of `addFederationMetadataToSchemaNodes` for
one `typeToServiceMap` entry.  `schema.getType(typeName)` returning
`undefined` followed by the `federation` assignment is a throw. -/
def annotateSchemaForEntry (schema : GraphQLSchema) (typeName : String)
    (entry : TypeToServiceEntry) : Option GraphQLSchema :=
  match AssocMap.lookup schema.types typeName with
  | none => none
  | some t =>
    let t := { t with federation :=
      { t.federation with serviceName := entry.serviceName } }
    let afterObject : Option GraphQLNamedType :=
      if t.kind = .objectType then
        match annotateObjectTypeKeys t with
        | none => none
        | some t' =>
            match annotateFieldsProvides t'.fields with
            | none => none
            | some fs => some { t' with fields := fs }
      else
        some t
    match afterObject with
    | none => none
    | some t' =>
      match annotateExtensionFields t' entry.extensionFieldsToOwningServiceMap with
      | none => none
      | some t'' =>
          some { schema with types := AssocMap.insert schema.types typeName t'' }

/-- `addFederationMetadataToSchemaNodes` from `composeServices.ts`: iterate
the ownership entries, threading the (mutated-in-place in the source) schema
through. -/
def addFederationMetadataToSchemaNodes (schema : GraphQLSchema) :
    AssocMap TypeToServiceEntry → Option GraphQLSchema
  | [] => some schema
  | (typeName, entry) :: rest =>
    match annotateSchemaForEntry schema typeName entry with
    | none => none
    | some schema' => addFederationMetadataToSchemaNodes schema' rest

/-- `composeServices` from `composeServices.ts`: build the three maps,
assemble the schema and the error list, annotate the schema with federation
metadata and return `(schema, errors)`.  A thrown exception anywhere in the
pipeline is `none`. -/
def composeServices (services : List ServiceDefinition) : Option SchemaAndErrors :=
  match buildMapsFromServiceList services with
  | none => none
  | some maps =>
    let r := buildSchemaFromDefinitionsAndExtensions maps.definitionsMap maps.extensionsMap
    match addFederationMetadataToSchemaNodes r.schema maps.typeToServiceMap with
    | none => none
    | some schema => some { schema := schema, errors := r.errors }

/-! ## Observables and predicates used by the claim statements -/

/-- The `serviceName` recorded for type `T` in the Ownership Ledger,
flattened over entry existence: `none` when `T` has no entry or its entry's
`serviceName` property is absent, `some none` when the property is set to
`null`, and `some (some s)` when it names the owning service `s`. -/
def svcName (maps : ServiceMaps) (T : String) : Option (Option String) :=
  match AssocMap.lookup maps.typeToServiceMap T with
  | none => none
  | some entry => entry.serviceName

/-- A field that does not carry an `external` directive. -/
def fieldHasNoExternalDirective (f : FieldDefinitionNode) : Bool :=
  (findDirectivesOnTypeOrField (some f.directives) "external").length = 0

/-- All (present) fields of a base definition are free of `external`. -/
def typeDefinitionExternalFree (d : TypeDefinitionNode) : Bool :=
  (d.fields.getD []).all fieldHasNoExternalDirective

/-- All (present) fields of an extension are free of `external`. -/
def typeExtensionExternalFree (e : TypeExtensionNode) : Bool :=
  (e.fields.getD []).all fieldHasNoExternalDirective

/-- The invariant the GraphQL reference parser guarantees on SDL it produces:
an object or input-object extension always carries a (possibly empty) field
list, and an enum extension always carries a (possibly empty) value list.
`buildMapsFromServiceList`'s `break` statements can only fire on documents
violating this. -/
def parserOkDefinition : DefinitionNode → Bool
  | .typeExt node =>
      (if node.kind = .objectType ∨ node.kind = .inputObjectType then
        node.fields.isSome
      else
        true) &&
      (if node.kind = .enumType then node.values.isSome else true)
  | _ => true

/-- A document every top-level definition of which satisfies
`parserOkDefinition`. -/
def parserOkDocument (doc : DocumentNode) : Bool :=
  doc.definitions.all parserOkDefinition

/-- The stripped base declarations of type name `T` among a definition list,
in order (these are exactly the nodes the scan appends to the Definitions
Ledger under `T`). -/
def baseDeclsOfDefs (T : String) (l : List DefinitionNode) : List TypeDefinitionNode :=
  l.filterMap (fun d =>
    match stripExternalFieldsFromTypeDefinition d with
    | .typeDef n => if n.name = T then some n else none
    | _ => none)

/-- All stripped base declarations of `T` across a service list, in input
order. -/
def servicesBaseDecls (T : String) (services : List ServiceDefinition) :
    List TypeDefinitionNode :=
  services.foldr (fun s acc => baseDeclsOfDefs T s.typeDefs.definitions ++ acc) []

/-- Whether a service contains at least one base declaration of `T`. -/
def declaresBase (s : ServiceDefinition) (T : String) : Bool :=
  !(baseDeclsOfDefs T s.typeDefs.definitions).isEmpty

/-- The name of the last service (in input order) containing a base
declaration of `T`. -/
def lastBaseDeclarer (T : String) : List ServiceDefinition → Option String
  | [] => none
  | s :: rest =>
    match lastBaseDeclarer T rest with
    | some r => some r
    | none => if declaresBase s T then some s.name else none

/-- The last definition node with the given name in a definitions document. -/
def lastDefinitionOf (name : String) : List TypeDefinitionNode → Option TypeDefinitionNode
  | [] => none
  | d :: rest =>
    match lastDefinitionOf name rest with
    | some r => some r
    | none => if d.name = name then some d else none

/-- The field names contributed to type `name` by an extensions document, in
order. -/
def extFieldNamesOf (name : String) : List TypeExtensionNode → List String
  | [] => []
  | e :: rest =>
      (if e.name = name then (e.fields.getD []).map FieldDefinitionNode.name else [])
        ++ extFieldNamesOf name rest

/-- Keys metadata the Metadata Annotator guarantees on an object type:
`federation.keys` is exactly the list of selection sets of the usable `key`
occurrences on the type's AST node — in particular a present list, and the
empty list whenever no usable occurrence exists (no occurrence at all, or
only dropped ones). -/
def objectKeysAnnotated (t : GraphQLNamedType) : Prop :=
  t.kind = .objectType →
    t.federation.keys =
      some ((findDirectivesOnTypeOrField
        (t.astNode.map TypeDefinitionNode.directives) "key").filterMap
          usableKeySelection)

/-- A field whose `provides`/`requires` metadata is attached only when the
matching directive is present on its AST node. -/
def fieldDirectiveClean (f : GraphQLField) : Prop :=
  (findDirectivesOnTypeOrField (some f.astNode.directives) "provides" = [] →
    f.federation.provides = none) ∧
  (findDirectivesOnTypeOrField (some f.astNode.directives) "requires" = [] →
    f.federation.requires = none)

/-- How the annotation passes may evolve a field: the AST node is unchanged,
and `provides`/`requires` are only written when the matching directive is
present. -/
def fieldEvolution (f f' : GraphQLField) : Prop :=
  f'.astNode = f.astNode ∧
  (findDirectivesOnTypeOrField (some f.astNode.directives) "provides" = [] →
    f'.federation.provides = f.federation.provides) ∧
  (findDirectivesOnTypeOrField (some f.astNode.directives) "requires" = [] →
    f'.federation.requires = f.federation.requires)

/-- A field carrying no `provides`/`requires` metadata at all (the state in
which the Schema Assembler creates every field). -/
def fieldFresh (f : GraphQLField) : Prop :=
  f.federation.provides = none ∧ f.federation.requires = none

/-! ## Concrete inputs used to settle the claims -/

/-- C1: a single service whose only declaration is a scalar extension
(`extend scalar Color @deprecated`, a parseable document) with no base
declaration anywhere. -/
def c1Services : List ServiceDefinition :=
  [{ typeDefs := { definitions := [DefinitionNode.typeExt
       { kind := .scalarType, name := "Color",
         directives := [{ name := "deprecated", arguments := some [] }],
         fields := none, values := none }] },
     name := "serviceA" }]

/-- C2 witness input: a base declaration in one service, an object extension
of the same type in another. -/
def c2Services : List ServiceDefinition :=
  [{ typeDefs := { definitions := [DefinitionNode.typeDef
       { kind := .objectType, name := "Product", directives := [],
         fields := some [{ name := "sku", directives := [] }], values := none }] },
     name := "serviceA" },
   { typeDefs := { definitions := [DefinitionNode.typeExt
       { kind := .objectType, name := "Product", directives := [],
         fields := some [{ name := "price", directives := [] }], values := none }] },
     name := "serviceB" }]

/-- The maps `buildMapsFromServiceList` produces on `c2Services`. -/
def c2Maps : ServiceMaps :=
  (buildMapsFromServiceList c2Services).getD
    { typeToServiceMap := [], definitionsMap := [], extensionsMap := [] }

/-- C3 witness input: the extension-first order `[B, A]` of the spec's
order-sensitivity scenario — `B` only extends `Product`, `A` declares it. -/
def c3Services : List ServiceDefinition :=
  [{ typeDefs := { definitions := [DefinitionNode.typeExt
       { kind := .objectType, name := "Product", directives := [],
         fields := some [{ name := "price", directives := [] }], values := none }] },
     name := "serviceB" },
   { typeDefs := { definitions := [DefinitionNode.typeDef
       { kind := .objectType, name := "Product", directives := [],
         fields := some [{ name := "sku", directives := [] }], values := none }] },
     name := "serviceA" }]

/-- The maps `buildMapsFromServiceList` produces on `c3Services`. -/
def c3Maps : ServiceMaps :=
  (buildMapsFromServiceList c3Services).getD
    { typeToServiceMap := [], definitionsMap := [], extensionsMap := [] }

/-- C4: one service fragment whose first declaration is an object extension
with no field list and whose second declaration is an ordinary base type. -/
def c4Services : List ServiceDefinition :=
  [{ typeDefs := { definitions :=
       [DefinitionNode.typeExt
         { kind := .objectType, name := "T", directives := [],
           fields := none, values := none },
        DefinitionNode.typeDef
         { kind := .objectType, name := "U", directives := [],
           fields := some [{ name := "f", directives := [] }], values := none }] },
     name := "serviceS" }]

/-- C6: an input-object extension with one field annotated `@external`. -/
def c6ExtensionNode : TypeExtensionNode :=
  { kind := .inputObjectType, name := "I", directives := [],
    fields := some
      [{ name := "x", directives := [{ name := "external", arguments := none }] }],
    values := none }

/-- C6: a single service contributing only `c6ExtensionNode`. -/
def c6Services : List ServiceDefinition :=
  [{ typeDefs := { definitions := [DefinitionNode.typeExt c6ExtensionNode] },
     name := "serviceA" }]

/-- The maps `buildMapsFromServiceList` produces on `c6Services`. -/
def c6Maps : ServiceMaps :=
  (buildMapsFromServiceList c6Services).getD
    { typeToServiceMap := [], definitionsMap := [], extensionsMap := [] }

/-- C6 witness input: an object base declaration with an `@external` field
followed by a plain field. -/
def c6WitnessServices : List ServiceDefinition :=
  [{ typeDefs := { definitions := [DefinitionNode.typeDef
       { kind := .objectType, name := "Product", directives := [],
         fields := some
           [{ name := "sku", directives := [{ name := "external", arguments := none }] },
            { name := "price", directives := [] }],
         values := none }] },
     name := "serviceA" }]

/-- The maps `buildMapsFromServiceList` produces on `c6WitnessServices`. -/
def c6WitnessMaps : ServiceMaps :=
  (buildMapsFromServiceList c6WitnessServices).getD
    { typeToServiceMap := [], definitionsMap := [], extensionsMap := [] }

/-- C7: a service declaring `type Product @key { sku }` — the `key`
occurrence parses with an empty arguments list. -/
def c7Services : List ServiceDefinition :=
  [{ typeDefs := { definitions := [DefinitionNode.typeDef
       { kind := .objectType, name := "Product",
         directives := [{ name := "key", arguments := some [] }],
         fields := some [{ name := "sku", directives := [] }], values := none }] },
     name := "serviceA" }]

/-- C8: a definitions ledger in which `Product` was base-declared twice —
first with `sku`/`name` fields, then with `id`/`name`/`price` fields. -/
def c8DefinitionsMap : AssocMap (List TypeDefinitionNode) :=
  [("Product",
    [{ kind := .objectType, name := "Product", directives := [],
       fields := some [{ name := "sku", directives := [] },
                       { name := "name", directives := [] }],
       values := none },
     { kind := .objectType, name := "Product", directives := [],
       fields := some [{ name := "id", directives := [] },
                       { name := "name", directives := [] },
                       { name := "price", directives := [] }],
       values := none }])]

/-- C8 witness input: one extension of `Product` contributing `reviews`. -/
def c8ExtensionsMap : AssocMap (List TypeExtensionNode) :=
  [("Product",
    [{ kind := .objectType, name := "Product", directives := [],
       fields := some [{ name := "reviews", directives := [] }],
       values := none }])]

/-- C9: a single service whose only declaration is a union extension. -/
def c9Services : List ServiceDefinition :=
  [{ typeDefs := { definitions := [DefinitionNode.typeExt
       { kind := .unionType, name := "U", directives := [],
         fields := none, values := none }] },
     name := "serviceA" }]

/-- C10 witness input: `type Product @key(fields: "sku") { sku }` from one
service, extended with `price @requires(fields: "sku")` from another, the
extension also carrying a `@provides`-free plain field. -/
def c10Services : List ServiceDefinition :=
  [{ typeDefs := { definitions := [DefinitionNode.typeDef
       { kind := .objectType, name := "Product",
         directives :=
           [{ name := "key",
              arguments := some [{ name := "fields", value := .stringValue "sku" }] }],
         fields := some [{ name := "sku", directives := [] }], values := none }] },
     name := "serviceA" },
   { typeDefs := { definitions := [DefinitionNode.typeExt
       { kind := .objectType, name := "Product", directives := [],
         fields := some
           [{ name := "price",
              directives :=
                [{ name := "requires",
                   arguments := some [{ name := "fields", value := .stringValue "sku" }] }] }],
         values := none }] },
     name := "serviceB" }]

/-- The maps `buildMapsFromServiceList` produces on `c10Services`. -/
def c10Maps : ServiceMaps :=
  (buildMapsFromServiceList c10Services).getD
    { typeToServiceMap := [], definitionsMap := [], extensionsMap := [] }

/-- The composition result on `c10Services`. -/
def c10Result : SchemaAndErrors :=
  (composeServices c10Services).getD
    { schema := initialComposedSchema, errors := [] }

/-- The Ownership Ledger entry of `Product` in `c10Maps`. -/
def c10Entry : TypeToServiceEntry :=
  (AssocMap.lookup c10Maps.typeToServiceMap "Product").getD
    { serviceName := none, extensionFieldsToOwningServiceMap := [] }

/-- The composed `Product` type of `c10Result`. -/
def c10ProductType : GraphQLNamedType :=
  (AssocMap.lookup c10Result.schema.types "Product").getD
    { name := "", kind := .objectType, astNode := none, fields := [],
      federation := { serviceName := none, keys := none } }

/-! ## Association-map lemmas -/

namespace AssocMap

theorem lookup_insert {α : Type} (m : AssocMap α) (k : String) (v : α)
    (key : String) :
    lookup (insert m k v) key = if key = k then some v else lookup m key := by
  induction m with
  | nil =>
    simp only [insert, lookup]
    rcases eq_or_ne key k with h | h
    · simp [h]
    · simp [h, Ne.symm h]
  | cons hd tl ih =>
    obtain ⟨k0, w⟩ := hd
    simp only [insert]
    rcases eq_or_ne k0 k with h0 | h0
    · simp only [if_pos h0, lookup]
      rcases eq_or_ne k0 key with h | h
      · rw [if_pos h, if_pos (h.symm.trans h0)]
      · rw [if_neg h, if_neg h]
        rw [if_neg (fun hk : key = k => h ((hk.trans h0.symm).symm))]
    · simp only [if_neg h0, lookup]
      rcases eq_or_ne k0 key with h | h
      · rw [if_pos h, if_pos h]
        rw [if_neg (fun hk : key = k => h0 (h.trans hk))]
      · rw [if_neg h, if_neg h, ih]

theorem isSome_lookup_iff_mem_keys {α : Type} (m : AssocMap α) (key : String) :
    (lookup m key).isSome ↔ key ∈ keys m := by
  induction m with
  | nil => simp [lookup, keys]
  | cons hd tl ih =>
    obtain ⟨k0, w⟩ := hd
    simp only [lookup, keys, List.map_cons, List.mem_cons]
    rcases eq_or_ne k0 key with h | h
    · simp [h]
    · rw [if_neg h, or_iff_right (Ne.symm h)]
      exact ih

theorem mem_keys_insert {α : Type} (m : AssocMap α) (k : String) (v : α)
    (key : String) :
    key ∈ keys (insert m k v) ↔ key ∈ keys m ∨ key = k := by
  rw [← isSome_lookup_iff_mem_keys, ← isSome_lookup_iff_mem_keys, lookup_insert]
  rcases eq_or_ne key k with h | h
  · simp [h]
  · simp [h]

theorem nodup_keys_insert {α : Type} (m : AssocMap α) (k : String) (v : α)
    (h : (keys m).Nodup) : (keys (insert m k v)).Nodup := by
  induction m with
  | nil => simp [insert, keys]
  | cons hd tl ih =>
    obtain ⟨k0, w⟩ := hd
    simp only [keys, List.map_cons, List.nodup_cons] at h
    simp only [insert]
    rcases eq_or_ne k0 k with h0 | h0
    · simp only [if_pos h0, keys, List.map_cons, List.nodup_cons]
      exact h
    · simp only [if_neg h0, keys, List.map_cons, List.nodup_cons]
      refine ⟨fun hmem => ?_, ih h.2⟩
      rcases (mem_keys_insert tl k v k0).mp hmem with h' | h'
      · exact h.1 h'
      · exact h0 h'

theorem isSome_lookup_insert_of_isSome {α : Type} (m : AssocMap α) (k : String)
    (v : α) (key : String) (h : (lookup m key).isSome) :
    (lookup (insert m k v) key).isSome := by
  rw [lookup_insert]
  rcases eq_or_ne key k with h' | h'
  · simp [h']
  · simpa [h']

theorem lookup_insert_self {α : Type} (m : AssocMap α) (k : String) (v : α) :
    lookup (insert m k v) k = some v := by
  rw [lookup_insert]; simp

theorem lookup_insert_ne {α : Type} (m : AssocMap α) (k : String) (v : α)
    (key : String) (h : key ≠ k) : lookup (insert m k v) key = lookup m key := by
  rw [lookup_insert]; simp [h]

end AssocMap

/-! ## Effect of the individual scan steps on the three maps -/

theorem addBase_defs (maps : ServiceMaps) (S : String) (node : TypeDefinitionNode) :
    (addBaseTypeDefinition maps S node).definitionsMap =
      AssocMap.insert maps.definitionsMap node.name
        ((AssocMap.lookup maps.definitionsMap node.name).getD [] ++ [node]) := by
  unfold addBaseTypeDefinition
  cases AssocMap.lookup maps.typeToServiceMap node.name <;>
    cases h : AssocMap.lookup maps.definitionsMap node.name <;> simp [h]

theorem addBase_exts (maps : ServiceMaps) (S : String) (node : TypeDefinitionNode) :
    (addBaseTypeDefinition maps S node).extensionsMap = maps.extensionsMap := by
  unfold addBaseTypeDefinition
  cases AssocMap.lookup maps.typeToServiceMap node.name <;>
    cases AssocMap.lookup maps.definitionsMap node.name <;> rfl

theorem addBase_svcName (maps : ServiceMaps) (S : String) (node : TypeDefinitionNode)
    (T : String) :
    svcName (addBaseTypeDefinition maps S node) T =
      if T = node.name then some (some S) else svcName maps T := by
  unfold addBaseTypeDefinition svcName
  cases h1 : AssocMap.lookup maps.typeToServiceMap node.name <;>
    · simp only [h1]
      rw [AssocMap.lookup_insert]
      rcases eq_or_ne T node.name with h | h
      · simp [h]
      · simp [h]

theorem addBase_tts_isSome (maps : ServiceMaps) (S : String)
    (node : TypeDefinitionNode) (T : String) :
    (AssocMap.lookup (addBaseTypeDefinition maps S node).typeToServiceMap T).isSome ↔
      (AssocMap.lookup maps.typeToServiceMap T).isSome ∨ T = node.name := by
  unfold addBaseTypeDefinition
  cases h1 : AssocMap.lookup maps.typeToServiceMap node.name <;>
    · simp only [h1]
      rw [AssocMap.lookup_insert]
      rcases eq_or_ne T node.name with h | h
      · simp [h]
      · simp [h]

theorem addExt_defs (maps : ServiceMaps) (tn : String) (fields : AssocMap String) :
    (addExtensionFieldOwners maps tn fields).definitionsMap = maps.definitionsMap := by
  unfold addExtensionFieldOwners
  cases AssocMap.lookup maps.typeToServiceMap tn <;> rfl

theorem addExt_exts (maps : ServiceMaps) (tn : String) (fields : AssocMap String) :
    (addExtensionFieldOwners maps tn fields).extensionsMap = maps.extensionsMap := by
  unfold addExtensionFieldOwners
  cases AssocMap.lookup maps.typeToServiceMap tn <;> rfl

theorem addExt_svcName (maps : ServiceMaps) (tn : String) (fields : AssocMap String)
    (T : String) :
    svcName (addExtensionFieldOwners maps tn fields) T = svcName maps T := by
  unfold addExtensionFieldOwners svcName
  cases h1 : AssocMap.lookup maps.typeToServiceMap tn <;>
    · simp only [h1]
      rw [AssocMap.lookup_insert]
      rcases eq_or_ne T tn with h | h
      · subst h; simp [h1]
      · simp [h]

theorem addExt_tts_isSome (maps : ServiceMaps) (tn : String)
    (fields : AssocMap String) (T : String) :
    (AssocMap.lookup (addExtensionFieldOwners maps tn fields).typeToServiceMap T).isSome ↔
      (AssocMap.lookup maps.typeToServiceMap T).isSome ∨ T = tn := by
  unfold addExtensionFieldOwners
  cases h1 : AssocMap.lookup maps.typeToServiceMap tn <;>
    · simp only [h1]
      rw [AssocMap.lookup_insert]
      rcases eq_or_ne T tn with h | h
      · subst h; simp [h1]
      · simp [h]

theorem push_defs (maps : ServiceMaps) (node : TypeExtensionNode) :
    (pushExtension maps node).definitionsMap = maps.definitionsMap := by
  unfold pushExtension
  cases AssocMap.lookup maps.extensionsMap node.name <;> rfl

theorem push_tts (maps : ServiceMaps) (node : TypeExtensionNode) :
    (pushExtension maps node).typeToServiceMap = maps.typeToServiceMap := by
  unfold pushExtension
  cases AssocMap.lookup maps.extensionsMap node.name <;> rfl

theorem push_exts (maps : ServiceMaps) (node : TypeExtensionNode) :
    (pushExtension maps node).extensionsMap =
      AssocMap.insert maps.extensionsMap node.name
        ((AssocMap.lookup maps.extensionsMap node.name).getD [] ++ [node]) := by
  unfold pushExtension
  cases h : AssocMap.lookup maps.extensionsMap node.name <;> simp [h]

theorem push_svcName (maps : ServiceMaps) (node : TypeExtensionNode) (T : String) :
    svcName (pushExtension maps node) T = svcName maps T := by
  unfold svcName
  rw [push_tts]

/-! ## Branch equations of the scan -/

theorem processDefs_nil (S : String) (maps : ServiceMaps) :
    processServiceDefinitions S [] maps = maps := rfl

theorem processDefs_cons_typeDef (S : String) (d : DefinitionNode)
    (rest : List DefinitionNode) (maps : ServiceMaps) (node : TypeDefinitionNode)
    (heq : stripExternalFieldsFromTypeDefinition d = .typeDef node) :
    processServiceDefinitions S (d :: rest) maps =
      processServiceDefinitions S rest (addBaseTypeDefinition maps S node) := by
  conv_lhs => unfold processServiceDefinitions
  rw [heq]

theorem processDefs_cons_objExt_break (S : String) (d : DefinitionNode)
    (rest : List DefinitionNode) (maps : ServiceMaps) (node : TypeExtensionNode)
    (heq : stripExternalFieldsFromTypeDefinition d = .typeExt node)
    (hk : node.kind = .objectType ∨ node.kind = .inputObjectType)
    (hf : node.fields = none) :
    processServiceDefinitions S (d :: rest) maps = maps := by
  conv_lhs => unfold processServiceDefinitions
  rw [heq]
  simp only [if_pos hk, hf]

theorem processDefs_cons_objExt (S : String) (d : DefinitionNode)
    (rest : List DefinitionNode) (maps : ServiceMaps) (node : TypeExtensionNode)
    (fs : List FieldDefinitionNode)
    (heq : stripExternalFieldsFromTypeDefinition d = .typeExt node)
    (hk : node.kind = .objectType ∨ node.kind = .inputObjectType)
    (hf : node.fields = some fs) :
    processServiceDefinitions S (d :: rest) maps =
      processServiceDefinitions S rest
        (pushExtension
          (addExtensionFieldOwners maps node.name
            (mapFieldNamesToServiceName FieldDefinitionNode.name fs S))
          node) := by
  conv_lhs => unfold processServiceDefinitions
  rw [heq]
  simp only [if_pos hk, hf]

theorem processDefs_cons_enumExt_break (S : String) (d : DefinitionNode)
    (rest : List DefinitionNode) (maps : ServiceMaps) (node : TypeExtensionNode)
    (heq : stripExternalFieldsFromTypeDefinition d = .typeExt node)
    (hk1 : ¬ (node.kind = .objectType ∨ node.kind = .inputObjectType))
    (hk2 : node.kind = .enumType)
    (hv : node.values = none) :
    processServiceDefinitions S (d :: rest) maps = maps := by
  conv_lhs => unfold processServiceDefinitions
  rw [heq]
  simp only [if_neg hk1, if_pos hk2, hv]

theorem processDefs_cons_enumExt (S : String) (d : DefinitionNode)
    (rest : List DefinitionNode) (maps : ServiceMaps) (node : TypeExtensionNode)
    (vs : List EnumValueDefinitionNode)
    (heq : stripExternalFieldsFromTypeDefinition d = .typeExt node)
    (hk1 : ¬ (node.kind = .objectType ∨ node.kind = .inputObjectType))
    (hk2 : node.kind = .enumType)
    (hv : node.values = some vs) :
    processServiceDefinitions S (d :: rest) maps =
      processServiceDefinitions S rest
        (pushExtension
          (addExtensionFieldOwners maps node.name
            (mapFieldNamesToServiceName EnumValueDefinitionNode.name vs S))
          node) := by
  conv_lhs => unfold processServiceDefinitions
  rw [heq]
  simp only [if_neg hk1, if_pos hk2, hv]

theorem processDefs_cons_otherExt (S : String) (d : DefinitionNode)
    (rest : List DefinitionNode) (maps : ServiceMaps) (node : TypeExtensionNode)
    (heq : stripExternalFieldsFromTypeDefinition d = .typeExt node)
    (hk1 : ¬ (node.kind = .objectType ∨ node.kind = .inputObjectType))
    (hk2 : ¬ node.kind = .enumType) :
    processServiceDefinitions S (d :: rest) maps =
      processServiceDefinitions S rest (pushExtension maps node) := by
  conv_lhs => unfold processServiceDefinitions
  rw [heq]
  simp only [if_neg hk1, if_neg hk2]

theorem processDefs_cons_other (S : String) (d : DefinitionNode)
    (rest : List DefinitionNode) (maps : ServiceMaps)
    (heq : stripExternalFieldsFromTypeDefinition d = .otherDefinition) :
    processServiceDefinitions S (d :: rest) maps =
      processServiceDefinitions S rest maps := by
  conv_lhs => unfold processServiceDefinitions
  rw [heq]

/-! ## Scan invariants -/

theorem AssocMap.isSome_lookup_insert_iff {α : Type} (m : AssocMap α)
    (k : String) (v : α) (key : String) :
    (AssocMap.lookup (AssocMap.insert m k v) key).isSome ↔
      (AssocMap.lookup m key).isSome ∨ key = k := by
  rw [AssocMap.lookup_insert]
  rcases eq_or_ne key k with h | h
  · simp [h]
  · simp [h]

theorem addBase_tts_nodup (maps : ServiceMaps) (S : String)
    (node : TypeDefinitionNode)
    (h : (AssocMap.keys maps.typeToServiceMap).Nodup) :
    (AssocMap.keys (addBaseTypeDefinition maps S node).typeToServiceMap).Nodup := by
  unfold addBaseTypeDefinition
  cases h1 : AssocMap.lookup maps.typeToServiceMap node.name <;>
    · simp only [h1]
      exact AssocMap.nodup_keys_insert _ _ _ h

theorem addExt_tts_nodup (maps : ServiceMaps) (tn : String)
    (fields : AssocMap String)
    (h : (AssocMap.keys maps.typeToServiceMap).Nodup) :
    (AssocMap.keys (addExtensionFieldOwners maps tn fields).typeToServiceMap).Nodup := by
  unfold addExtensionFieldOwners
  cases h1 : AssocMap.lookup maps.typeToServiceMap tn <;>
    · simp only [h1]
      exact AssocMap.nodup_keys_insert _ _ _ h

theorem scan_tts_isSome_mono (S : String) (L : List DefinitionNode)
    (maps : ServiceMaps) (T : String) :
    (AssocMap.lookup maps.typeToServiceMap T).isSome →
    (AssocMap.lookup (processServiceDefinitions S L maps).typeToServiceMap T).isSome := by
  induction L, maps using processServiceDefinitions.induct S with
  | case1 maps =>
    intro h; rw [processDefs_nil]; exact h
  | case2 d rest maps node heq ih =>
    intro h
    rw [processDefs_cons_typeDef S d rest maps node heq]
    exact ih ((addBase_tts_isSome maps S node T).mpr (Or.inl h))
  | case3 d rest maps node heq hk hf =>
    intro h
    rw [processDefs_cons_objExt_break S d rest maps node heq hk hf]; exact h
  | case4 d rest maps node heq hk fs hf ih =>
    intro h
    rw [processDefs_cons_objExt S d rest maps node fs heq hk hf]
    apply ih
    rw [push_tts]
    exact (addExt_tts_isSome _ _ _ T).mpr (Or.inl h)
  | case5 d rest maps node heq hk1 hk2 hv =>
    intro h
    rw [processDefs_cons_enumExt_break S d rest maps node heq hk1 hk2 hv]; exact h
  | case6 d rest maps node heq hk1 hk2 vs hv ih =>
    intro h
    rw [processDefs_cons_enumExt S d rest maps node vs heq hk1 hk2 hv]
    apply ih
    rw [push_tts]
    exact (addExt_tts_isSome _ _ _ T).mpr (Or.inl h)
  | case7 d rest maps node heq hk1 hk2 ih =>
    intro h
    rw [processDefs_cons_otherExt S d rest maps node heq hk1 hk2]
    apply ih
    rw [push_tts]; exact h
  | case8 d rest maps heq ih =>
    intro h
    rw [processDefs_cons_other S d rest maps heq]
    exact ih h

theorem scan_defs_owned (S : String) (L : List DefinitionNode) (maps : ServiceMaps) :
    (∀ n, (AssocMap.lookup maps.definitionsMap n).isSome →
       (AssocMap.lookup maps.typeToServiceMap n).isSome) →
    ∀ n, (AssocMap.lookup (processServiceDefinitions S L maps).definitionsMap n).isSome →
      (AssocMap.lookup (processServiceDefinitions S L maps).typeToServiceMap n).isSome := by
  induction L, maps using processServiceDefinitions.induct S with
  | case1 maps =>
    intro h n; rw [processDefs_nil]; exact h n
  | case2 d rest maps node heq ih =>
    intro h n
    rw [processDefs_cons_typeDef S d rest maps node heq]
    apply ih
    intro n' hn'
    rw [addBase_defs] at hn'
    rcases (AssocMap.isSome_lookup_insert_iff _ _ _ n').mp hn' with h' | h'
    · exact (addBase_tts_isSome maps S node n').mpr (Or.inl (h n' h'))
    · exact (addBase_tts_isSome maps S node n').mpr (Or.inr h')
  | case3 d rest maps node heq hk hf =>
    intro h n
    rw [processDefs_cons_objExt_break S d rest maps node heq hk hf]; exact h n
  | case4 d rest maps node heq hk fs hf ih =>
    intro h n
    rw [processDefs_cons_objExt S d rest maps node fs heq hk hf]
    apply ih
    intro n' hn'
    rw [push_defs, addExt_defs] at hn'
    rw [push_tts]
    exact (addExt_tts_isSome _ _ _ n').mpr (Or.inl (h n' hn'))
  | case5 d rest maps node heq hk1 hk2 hv =>
    intro h n
    rw [processDefs_cons_enumExt_break S d rest maps node heq hk1 hk2 hv]; exact h n
  | case6 d rest maps node heq hk1 hk2 vs hv ih =>
    intro h n
    rw [processDefs_cons_enumExt S d rest maps node vs heq hk1 hk2 hv]
    apply ih
    intro n' hn'
    rw [push_defs, addExt_defs] at hn'
    rw [push_tts]
    exact (addExt_tts_isSome _ _ _ n').mpr (Or.inl (h n' hn'))
  | case7 d rest maps node heq hk1 hk2 ih =>
    intro h n
    rw [processDefs_cons_otherExt S d rest maps node heq hk1 hk2]
    apply ih
    intro n' hn'
    rw [push_defs] at hn'
    rw [push_tts]
    exact h n' hn'
  | case8 d rest maps heq ih =>
    intro h n
    rw [processDefs_cons_other S d rest maps heq]
    exact ih h n

theorem scan_tts_nodup (S : String) (L : List DefinitionNode) (maps : ServiceMaps) :
    (AssocMap.keys maps.typeToServiceMap).Nodup →
    (AssocMap.keys (processServiceDefinitions S L maps).typeToServiceMap).Nodup := by
  induction L, maps using processServiceDefinitions.induct S with
  | case1 maps =>
    intro h; rw [processDefs_nil]; exact h
  | case2 d rest maps node heq ih =>
    intro h
    rw [processDefs_cons_typeDef S d rest maps node heq]
    exact ih (addBase_tts_nodup maps S node h)
  | case3 d rest maps node heq hk hf =>
    intro h
    rw [processDefs_cons_objExt_break S d rest maps node heq hk hf]; exact h
  | case4 d rest maps node heq hk fs hf ih =>
    intro h
    rw [processDefs_cons_objExt S d rest maps node fs heq hk hf]
    apply ih
    rw [push_tts]
    exact addExt_tts_nodup _ _ _ h
  | case5 d rest maps node heq hk1 hk2 hv =>
    intro h
    rw [processDefs_cons_enumExt_break S d rest maps node heq hk1 hk2 hv]; exact h
  | case6 d rest maps node heq hk1 hk2 vs hv ih =>
    intro h
    rw [processDefs_cons_enumExt S d rest maps node vs heq hk1 hk2 hv]
    apply ih
    rw [push_tts]
    exact addExt_tts_nodup _ _ _ h
  | case7 d rest maps node heq hk1 hk2 ih =>
    intro h
    rw [processDefs_cons_otherExt S d rest maps node heq hk1 hk2]
    apply ih
    rw [push_tts]; exact h
  | case8 d rest maps heq ih =>
    intro h
    rw [processDefs_cons_other S d rest maps heq]
    exact ih h

theorem scanServices_nil (maps : ServiceMaps) : scanServices [] maps = maps := rfl

theorem scanServices_cons (s : ServiceDefinition) (rest : List ServiceDefinition)
    (maps : ServiceMaps) :
    scanServices (s :: rest) maps =
      scanServices rest (processServiceDefinitions s.name s.typeDefs.definitions maps) :=
  rfl

theorem scanServices_defs_owned (services : List ServiceDefinition)
    (maps : ServiceMaps) :
    (∀ n, (AssocMap.lookup maps.definitionsMap n).isSome →
       (AssocMap.lookup maps.typeToServiceMap n).isSome) →
    ∀ n, (AssocMap.lookup (scanServices services maps).definitionsMap n).isSome →
      (AssocMap.lookup (scanServices services maps).typeToServiceMap n).isSome := by
  induction services generalizing maps with
  | nil => intro h; rw [scanServices_nil]; exact h
  | cons s rest ih =>
    intro h
    rw [scanServices_cons]
    exact ih _ (scan_defs_owned s.name s.typeDefs.definitions maps h)

theorem scanServices_tts_nodup (services : List ServiceDefinition)
    (maps : ServiceMaps) :
    (AssocMap.keys maps.typeToServiceMap).Nodup →
    (AssocMap.keys (scanServices services maps).typeToServiceMap).Nodup := by
  induction services generalizing maps with
  | nil => intro h; rw [scanServices_nil]; exact h
  | cons s rest ih =>
    intro h
    rw [scanServices_cons]
    exact ih _ (scan_tts_nodup s.name s.typeDefs.definitions maps h)

/-! ## The Phantom-Base Synthesizer pass -/

theorem synth_nil (maps : ServiceMaps) :
    synthesizeMissingBaseTypes [] maps = some maps := rfl

theorem synth_cons_present (tn : String) (rest : List String) (maps : ServiceMaps)
    (l : List TypeDefinitionNode)
    (hdef : AssocMap.lookup maps.definitionsMap tn = some l) :
    synthesizeMissingBaseTypes (tn :: rest) maps =
      synthesizeMissingBaseTypes rest maps := by
  conv_lhs => unfold synthesizeMissingBaseTypes
  rw [hdef]

theorem synth_cons_crash (tn : String) (rest : List String) (maps : ServiceMaps)
    (hdef : AssocMap.lookup maps.definitionsMap tn = none)
    (htts : AssocMap.lookup maps.typeToServiceMap tn = none) :
    synthesizeMissingBaseTypes (tn :: rest) maps = none := by
  conv_lhs => unfold synthesizeMissingBaseTypes
  rw [hdef, htts]

theorem synth_cons_missing (tn : String) (rest : List String) (maps : ServiceMaps)
    (entry : TypeToServiceEntry)
    (hdef : AssocMap.lookup maps.definitionsMap tn = none)
    (htts : AssocMap.lookup maps.typeToServiceMap tn = some entry) :
    synthesizeMissingBaseTypes (tn :: rest) maps =
      synthesizeMissingBaseTypes rest
        { maps with
          definitionsMap :=
            AssocMap.insert maps.definitionsMap tn [emptyFieldsObjectDefinition tn],
          typeToServiceMap :=
            AssocMap.insert maps.typeToServiceMap tn
              { entry with serviceName := some none } } := by
  conv_lhs => unfold synthesizeMissingBaseTypes
  rw [hdef, htts]

theorem synth_exts_eq (ks : List String) (maps : ServiceMaps) :
    ∀ maps', synthesizeMissingBaseTypes ks maps = some maps' →
      maps'.extensionsMap = maps.extensionsMap := by
  induction ks, maps using synthesizeMissingBaseTypes.induct with
  | case1 maps =>
    intro maps' h
    rw [synth_nil] at h
    cases h; rfl
  | case2 tn rest maps l hdef ih =>
    intro maps' h
    rw [synth_cons_present tn rest maps l hdef] at h
    exact ih maps' h
  | case3 tn rest maps hdef htts =>
    intro maps' h
    rw [synth_cons_crash tn rest maps hdef htts] at h
    cases h
  | case4 tn rest maps hdef defsIns entry htts ih =>
    intro maps' h
    rw [synth_cons_missing tn rest maps entry hdef htts] at h
    exact ih maps' h

theorem synth_tts_mono (ks : List String) (maps : ServiceMaps) :
    ∀ maps', synthesizeMissingBaseTypes ks maps = some maps' →
      ∀ T, (AssocMap.lookup maps.typeToServiceMap T).isSome →
        (AssocMap.lookup maps'.typeToServiceMap T).isSome := by
  induction ks, maps using synthesizeMissingBaseTypes.induct with
  | case1 maps =>
    intro maps' h T hT
    rw [synth_nil] at h
    cases h; exact hT
  | case2 tn rest maps l hdef ih =>
    intro maps' h T hT
    rw [synth_cons_present tn rest maps l hdef] at h
    exact ih maps' h T hT
  | case3 tn rest maps hdef htts =>
    intro maps' h
    rw [synth_cons_crash tn rest maps hdef htts] at h
    cases h
  | case4 tn rest maps hdef defsIns entry htts ih =>
    intro maps' h T hT
    rw [synth_cons_missing tn rest maps entry hdef htts] at h
    exact ih maps' h T
      ((AssocMap.isSome_lookup_insert_iff _ _ _ T).mpr (Or.inl hT))

theorem synth_owned (ks : List String) (maps : ServiceMaps) :
    (∀ n, (AssocMap.lookup maps.definitionsMap n).isSome →
       (AssocMap.lookup maps.typeToServiceMap n).isSome) →
    ∀ maps', synthesizeMissingBaseTypes ks maps = some maps' →
      (∀ n, (AssocMap.lookup maps'.definitionsMap n).isSome →
         (AssocMap.lookup maps'.typeToServiceMap n).isSome) ∧
      (∀ n, n ∈ ks → (AssocMap.lookup maps'.typeToServiceMap n).isSome) := by
  induction ks, maps using synthesizeMissingBaseTypes.induct with
  | case1 maps =>
    intro howned maps' h
    rw [synth_nil] at h
    cases h
    exact ⟨howned, by simp⟩
  | case2 tn rest maps l hdef ih =>
    intro howned maps' h
    rw [synth_cons_present tn rest maps l hdef] at h
    refine ⟨(ih howned maps' h).1, ?_⟩
    intro n hn
    rcases List.mem_cons.mp hn with h' | h'
    · subst h'
      exact synth_tts_mono rest maps maps' h n
        (howned n (by rw [hdef]; rfl))
    · exact (ih howned maps' h).2 n h'
  | case3 tn rest maps hdef htts =>
    intro howned maps' h
    rw [synth_cons_crash tn rest maps hdef htts] at h
    cases h
  | case4 tn rest maps hdef defsIns entry htts ih =>
    intro howned maps' h
    rw [synth_cons_missing tn rest maps entry hdef htts] at h
    have howned2 : ∀ n,
        (AssocMap.lookup (AssocMap.insert maps.definitionsMap tn
          [emptyFieldsObjectDefinition tn]) n).isSome →
        (AssocMap.lookup (AssocMap.insert maps.typeToServiceMap tn
          { entry with serviceName := some none }) n).isSome := by
      intro n hn
      rcases (AssocMap.isSome_lookup_insert_iff _ _ _ n).mp hn with h' | h'
      · exact (AssocMap.isSome_lookup_insert_iff _ _ _ n).mpr (Or.inl (howned n h'))
      · exact (AssocMap.isSome_lookup_insert_iff _ _ _ n).mpr (Or.inr h')
    refine ⟨(ih howned2 maps' h).1, ?_⟩
    intro n hn
    rcases List.mem_cons.mp hn with h' | h'
    · subst h'
      refine synth_tts_mono rest _ maps' h n ?_
      exact (AssocMap.isSome_lookup_insert_iff _ _ _ n).mpr (Or.inr rfl)
    · exact (ih howned2 maps' h).2 n h'

theorem synth_tts_nodup (ks : List String) (maps : ServiceMaps) :
    ∀ maps', synthesizeMissingBaseTypes ks maps = some maps' →
      (AssocMap.keys maps.typeToServiceMap).Nodup →
      (AssocMap.keys maps'.typeToServiceMap).Nodup := by
  induction ks, maps using synthesizeMissingBaseTypes.induct with
  | case1 maps =>
    intro maps' h hd
    rw [synth_nil] at h
    cases h; exact hd
  | case2 tn rest maps l hdef ih =>
    intro maps' h hd
    rw [synth_cons_present tn rest maps l hdef] at h
    exact ih maps' h hd
  | case3 tn rest maps hdef htts =>
    intro maps' h
    rw [synth_cons_crash tn rest maps hdef htts] at h
    cases h
  | case4 tn rest maps hdef defsIns entry htts ih =>
    intro maps' h hd
    rw [synth_cons_missing tn rest maps entry hdef htts] at h
    exact ih maps' h (AssocMap.nodup_keys_insert _ _ _ hd)

theorem synth_defs_val (ks : List String) (maps : ServiceMaps) :
    ∀ maps', synthesizeMissingBaseTypes ks maps = some maps' →
      ∀ T l, AssocMap.lookup maps.definitionsMap T = some l →
        AssocMap.lookup maps'.definitionsMap T = some l := by
  induction ks, maps using synthesizeMissingBaseTypes.induct with
  | case1 maps =>
    intro maps' h T l hT
    rw [synth_nil] at h
    cases h; exact hT
  | case2 tn rest maps l0 hdef ih =>
    intro maps' h T l hT
    rw [synth_cons_present tn rest maps l0 hdef] at h
    exact ih maps' h T l hT
  | case3 tn rest maps hdef htts =>
    intro maps' h
    rw [synth_cons_crash tn rest maps hdef htts] at h
    cases h
  | case4 tn rest maps hdef defsIns entry htts ih =>
    intro maps' h T l hT
    rw [synth_cons_missing tn rest maps entry hdef htts] at h
    have hne : T ≠ tn := by
      intro hTt
      rw [hTt, hdef] at hT
      cases hT
    refine ih maps' h T l ?_
    rw [AssocMap.lookup_insert_ne _ _ _ _ hne]
    exact hT

theorem synth_svcName_pres (ks : List String) (maps : ServiceMaps) :
    ∀ maps', synthesizeMissingBaseTypes ks maps = some maps' →
      ∀ T, (AssocMap.lookup maps.definitionsMap T).isSome →
        svcName maps' T = svcName maps T := by
  induction ks, maps using synthesizeMissingBaseTypes.induct with
  | case1 maps =>
    intro maps' h T hT
    rw [synth_nil] at h
    cases h; rfl
  | case2 tn rest maps l0 hdef ih =>
    intro maps' h T hT
    rw [synth_cons_present tn rest maps l0 hdef] at h
    exact ih maps' h T hT
  | case3 tn rest maps hdef htts =>
    intro maps' h
    rw [synth_cons_crash tn rest maps hdef htts] at h
    cases h
  | case4 tn rest maps hdef defsIns entry htts ih =>
    intro maps' h T hT
    rw [synth_cons_missing tn rest maps entry hdef htts] at h
    have hne : T ≠ tn := by
      intro hTt
      rw [hTt, hdef] at hT
      cases hT
    have h2 := ih maps' h T
      (by rw [AssocMap.lookup_insert_ne _ _ _ _ hne]; exact hT)
    rw [h2]
    unfold svcName
    rw [AssocMap.lookup_insert_ne _ _ _ _ hne]

/-! ## Claim C2 -/

/-- Claim C2 (confirmed): whenever `buildMapsFromServiceList` returns, every
type name that is a key of the Definitions Ledger or of the Extensions Ledger
has exactly one entry in the Ownership Ledger (its key occurs exactly once in
`typeToServiceMap`).  This covers extensions of every kind: a scalar, union,
or interface extension whose type name never acquires an ownership entry
makes the function throw instead of return, so it cannot produce a returned
ledger violating the invariant. -/
theorem buildMaps_ledger_keys_have_unique_ownership_entry
    (services : List ServiceDefinition) (maps : ServiceMaps)
    (h : buildMapsFromServiceList services = some maps) :
    ∀ n, (n ∈ AssocMap.keys maps.definitionsMap ∨
          n ∈ AssocMap.keys maps.extensionsMap) →
      (AssocMap.keys maps.typeToServiceMap).count n = 1 := by
  simp only [buildMapsFromServiceList] at h
  have howned0 : ∀ n,
      (AssocMap.lookup
        ({ typeToServiceMap := [], definitionsMap := [], extensionsMap := [] } :
          ServiceMaps).definitionsMap n).isSome →
      (AssocMap.lookup
        ({ typeToServiceMap := [], definitionsMap := [], extensionsMap := [] } :
          ServiceMaps).typeToServiceMap n).isSome := by
    intro n hn
    simp [AssocMap.lookup] at hn
  have howned := scanServices_defs_owned services _ howned0
  have hnodup := scanServices_tts_nodup services
    { typeToServiceMap := [], definitionsMap := [], extensionsMap := [] }
    (by simp [AssocMap.keys])
  obtain ⟨howned', hks⟩ := synth_owned _ _ howned maps h
  have hnodup' := synth_tts_nodup _ _ maps h hnodup
  have hexts := synth_exts_eq _ _ maps h
  intro n hn
  have hsome : (AssocMap.lookup maps.typeToServiceMap n).isSome := by
    rcases hn with hn | hn
    · exact howned' n ((AssocMap.isSome_lookup_iff_mem_keys _ n).mpr hn)
    · apply hks n
      rw [hexts] at hn
      exact hn
  exact List.count_eq_one_of_mem hnodup'
    ((AssocMap.isSome_lookup_iff_mem_keys _ n).mp hsome)

/-- Witness for C2 at a concrete input: composing a base declaration of
`Product` with an object extension of it yields exactly one ownership entry
for `Product`. -/
theorem buildMaps_ledger_keys_have_unique_ownership_entry_witness :
    (AssocMap.keys c2Maps.typeToServiceMap).count "Product" = 1 :=
  buildMaps_ledger_keys_have_unique_ownership_entry c2Services c2Maps
    (by rfl) "Product" (Or.inl (by decide))

/-! ## Claims C1, C4, C5, C7 and C9: evaluations at the failing inputs -/

/-- Claim C1 (code bug): `composeServices` is not total on parsed service
lists.  On a service list whose only declaration is a scalar extension with
no base declaration anywhere (`extend scalar Color @deprecated`), the
phantom-base pass reads `typeToServiceMap[extensionTypeName].serviceName`
of an `undefined` entry — scalar (like union and interface) extensions never
create an ownership entry — and the whole call throws a `TypeError` instead
of returning a `(schema, errors)` pair. -/
theorem composeServices_throws_on_scalar_extension_without_base :
    composeServices c1Services = none := by rfl

/-- Claim C4 (code bug): an object-type extension without a field list does
not merely skip its own field-ownership processing — the `break` on line 115
abandons the whole service fragment.  On a fragment whose first declaration
is such an extension and whose second declaration is the base type `U`, the
returned maps are completely empty: `U` reaches neither the Definitions
Ledger nor the Ownership Ledger, and the extension node itself is not queued
either. -/
theorem fieldless_extension_break_skips_rest_of_service :
    buildMapsFromServiceList c4Services =
      some { typeToServiceMap := [], definitionsMap := [], extensionsMap := [] } := by
  rfl

/-- Claim C5 (code bug): the directives registered on every composed schema
are named `key`, `external`, `requires` and `requires` — the constant
`ProvidesDirective` in `directives.ts` is declared with `name: "requires"`,
so no directive named `provides` is ever present. -/
theorem composed_schema_has_no_provides_directive :
    (composeServices []).map (fun r => r.schema.directives.map GraphQLDirective.name) =
      some ["key", "external", "requires", "requires"] := by rfl

/-- Claim C7 (code bug): a `key` occurrence whose `fields` argument is
missing is not dropped silently.  Parsing `type Product @key { sku }` yields
a `key` occurrence with an empty arguments list; the guard
`keyDirective.arguments && isStringValueNode(keyDirective.arguments[0].value)`
passes the truthy empty array and then dereferences `undefined`, so the
annotator throws a `TypeError` instead of filtering the occurrence out. -/
theorem annotator_throws_on_key_directive_with_empty_arguments :
    composeServices c7Services = none := by rfl

/-- Claim C9 (code bug): a type that exists only as a union extension does
not compose with a `null` owning service — `buildMapsFromServiceList` throws,
because only object, input-object and enum extensions create the ownership
entry that the phantom-base pass assigns `null` into. -/
theorem buildMaps_throws_on_union_extension_without_base :
    buildMapsFromServiceList c9Services = none := by rfl

/-! ## Claim C3: last base declaration wins for ownership -/

theorem strip_typeExt_inv (d : DefinitionNode) (node : TypeExtensionNode)
    (heq : stripExternalFieldsFromTypeDefinition d = .typeExt node) :
    ∃ orig, d = .typeExt orig ∧ orig.kind = node.kind ∧ orig.name = node.name ∧
      orig.fields.isSome = node.fields.isSome ∧ orig.values = node.values := by
  cases d with
  | typeDef n =>
    by_cases hk : n.kind = TypeDefKind.objectType
    · cases hf : n.fields <;> simp [stripExternalFieldsFromTypeDefinition, hk, hf] at heq
    · simp [stripExternalFieldsFromTypeDefinition, hk] at heq
  | typeExt orig =>
    by_cases hk : orig.kind = TypeDefKind.objectType
    · cases hf : orig.fields with
      | none =>
        have hs : stripExternalFieldsFromTypeDefinition (.typeExt orig) = .typeExt orig := by
          simp [stripExternalFieldsFromTypeDefinition, hk, hf]
        rw [hs] at heq
        injection heq with h2
        refine ⟨orig, rfl, ?_, ?_, ?_, ?_⟩ <;> rw [← h2]
      | some fs =>
        have hs : stripExternalFieldsFromTypeDefinition (.typeExt orig) =
            .typeExt { orig with fields := some (fs.filter (fun field =>
              (findDirectivesOnTypeOrField (some field.directives) "external").length = 0)) } := by
          simp [stripExternalFieldsFromTypeDefinition, hk, hf]
        rw [hs] at heq
        injection heq with h2
        refine ⟨orig, rfl, ?_, ?_, ?_, ?_⟩ <;> (rw [← h2]; try simp [hf])
    · have hs : stripExternalFieldsFromTypeDefinition (.typeExt orig) = .typeExt orig := by
        simp [stripExternalFieldsFromTypeDefinition, hk]
      rw [hs] at heq
      injection heq with h2
      refine ⟨orig, rfl, ?_, ?_, ?_, ?_⟩ <;> rw [← h2]
  | otherDefinition =>
    simp [stripExternalFieldsFromTypeDefinition] at heq

/-- The scan of one service appends exactly that service's stripped base
declarations of `T` to the Definitions Ledger entry of `T`, and records the
service as owner exactly when the service base-declares `T` — provided the
document satisfies the parser invariant, so no `break` fires. -/
theorem scan_base_tracking (S : String) (T : String) (L : List DefinitionNode)
    (maps : ServiceMaps) :
    L.all parserOkDefinition = true →
    (AssocMap.lookup (processServiceDefinitions S L maps).definitionsMap T =
       (if baseDeclsOfDefs T L = [] then AssocMap.lookup maps.definitionsMap T
        else some ((AssocMap.lookup maps.definitionsMap T).getD [] ++ baseDeclsOfDefs T L))) ∧
    (svcName (processServiceDefinitions S L maps) T =
       (if baseDeclsOfDefs T L = [] then svcName maps T else some (some S))) := by
  induction L, maps using processServiceDefinitions.induct S with
  | case1 maps =>
    intro _
    rw [processDefs_nil]
    simp [baseDeclsOfDefs]
  | case2 d rest maps node heq ih =>
    intro hp
    rw [List.all_cons, Bool.and_eq_true] at hp
    obtain ⟨ihd, ihs⟩ := ih hp.2
    rw [processDefs_cons_typeDef S d rest maps node heq]
    have hdecls : baseDeclsOfDefs T (d :: rest) =
        (if node.name = T then [node] else []) ++ baseDeclsOfDefs T rest := by
      simp only [baseDeclsOfDefs, List.filterMap_cons, heq]
      rcases eq_or_ne node.name T with h | h
      · simp [h]
      · simp [h]
    by_cases hT : node.name = T
    · have hTd : T = node.name := hT.symm
      have hbdefs : AssocMap.lookup (addBaseTypeDefinition maps S node).definitionsMap T =
          some ((AssocMap.lookup maps.definitionsMap T).getD [] ++ [node]) := by
        rw [addBase_defs, hTd, AssocMap.lookup_insert_self]
      have hbsvc : svcName (addBaseTypeDefinition maps S node) T = some (some S) := by
        rw [addBase_svcName, if_pos hTd]
      rw [hbdefs] at ihd
      rw [hbsvc] at ihs
      rw [hdecls, if_pos hT]
      have hne : ¬ ([node] ++ baseDeclsOfDefs T rest = []) := by simp
      constructor
      · rw [if_neg hne]
        rcases eq_or_ne (baseDeclsOfDefs T rest) [] with hre | hre
        · rw [if_pos hre] at ihd
          rw [ihd, hre]
          simp
        · rw [if_neg hre] at ihd
          rw [ihd]
          simp
      · rw [if_neg hne]
        rcases eq_or_ne (baseDeclsOfDefs T rest) [] with hre | hre
        · rw [if_pos hre] at ihs
          exact ihs
        · rw [if_neg hre] at ihs
          exact ihs
    · have hTd : T ≠ node.name := fun h => hT h.symm
      have hbdefs : AssocMap.lookup (addBaseTypeDefinition maps S node).definitionsMap T =
          AssocMap.lookup maps.definitionsMap T := by
        rw [addBase_defs, AssocMap.lookup_insert_ne _ _ _ _ hTd]
      have hbsvc : svcName (addBaseTypeDefinition maps S node) T = svcName maps T := by
        rw [addBase_svcName, if_neg hTd]
      rw [hbdefs] at ihd
      rw [hbsvc] at ihs
      rw [hdecls, if_neg hT, List.nil_append]
      exact ⟨ihd, ihs⟩
  | case3 d rest maps node heq hk hf =>
    intro hp
    exfalso
    rw [List.all_cons, Bool.and_eq_true] at hp
    obtain ⟨orig, rfl, hkind, _, hfs, _⟩ := strip_typeExt_inv _ node heq
    have hpo := hp.1
    simp only [parserOkDefinition, Bool.and_eq_true] at hpo
    have h1 := hpo.1
    rw [if_pos (by rw [hkind]; exact hk)] at h1
    rw [hfs, hf] at h1
    simp at h1
  | case4 d rest maps node heq hk fs hf ih =>
    intro hp
    rw [List.all_cons, Bool.and_eq_true] at hp
    obtain ⟨ihd, ihs⟩ := ih hp.2
    rw [processDefs_cons_objExt S d rest maps node fs heq hk hf]
    have hdecls : baseDeclsOfDefs T (d :: rest) = baseDeclsOfDefs T rest := by
      simp [baseDeclsOfDefs, List.filterMap_cons, heq]
    rw [hdecls]
    rw [push_defs, addExt_defs] at ihd
    rw [push_svcName, addExt_svcName] at ihs
    exact ⟨ihd, ihs⟩
  | case5 d rest maps node heq hk1 hk2 hv =>
    intro hp
    exfalso
    rw [List.all_cons, Bool.and_eq_true] at hp
    obtain ⟨orig, rfl, hkind, _, _, hvs⟩ := strip_typeExt_inv _ node heq
    have hpo := hp.1
    simp only [parserOkDefinition, Bool.and_eq_true] at hpo
    have h2 := hpo.2
    rw [if_pos (by rw [hkind]; exact hk2)] at h2
    rw [hvs, hv] at h2
    simp at h2
  | case6 d rest maps node heq hk1 hk2 vs hv ih =>
    intro hp
    rw [List.all_cons, Bool.and_eq_true] at hp
    obtain ⟨ihd, ihs⟩ := ih hp.2
    rw [processDefs_cons_enumExt S d rest maps node vs heq hk1 hk2 hv]
    have hdecls : baseDeclsOfDefs T (d :: rest) = baseDeclsOfDefs T rest := by
      simp [baseDeclsOfDefs, List.filterMap_cons, heq]
    rw [hdecls]
    rw [push_defs, addExt_defs] at ihd
    rw [push_svcName, addExt_svcName] at ihs
    exact ⟨ihd, ihs⟩
  | case7 d rest maps node heq hk1 hk2 ih =>
    intro hp
    rw [List.all_cons, Bool.and_eq_true] at hp
    obtain ⟨ihd, ihs⟩ := ih hp.2
    rw [processDefs_cons_otherExt S d rest maps node heq hk1 hk2]
    have hdecls : baseDeclsOfDefs T (d :: rest) = baseDeclsOfDefs T rest := by
      simp [baseDeclsOfDefs, List.filterMap_cons, heq]
    rw [hdecls]
    rw [push_defs] at ihd
    rw [push_svcName] at ihs
    exact ⟨ihd, ihs⟩
  | case8 d rest maps heq ih =>
    intro hp
    rw [List.all_cons, Bool.and_eq_true] at hp
    obtain ⟨ihd, ihs⟩ := ih hp.2
    rw [processDefs_cons_other S d rest maps heq]
    have hdecls : baseDeclsOfDefs T (d :: rest) = baseDeclsOfDefs T rest := by
      simp [baseDeclsOfDefs, List.filterMap_cons, heq]
    rw [hdecls]
    exact ⟨ihd, ihs⟩

/-- The full scan over a service list: the Definitions Ledger entry of `T`
accumulates all stripped base declarations of `T` in input order, and the
recorded `serviceName` is the last base-declaring service's name. -/
theorem scanServices_base_tracking (T : String) (services : List ServiceDefinition)
    (maps : ServiceMaps) :
    (∀ s ∈ services, parserOkDocument s.typeDefs = true) →
    (AssocMap.lookup (scanServices services maps).definitionsMap T =
       (if servicesBaseDecls T services = [] then AssocMap.lookup maps.definitionsMap T
        else some ((AssocMap.lookup maps.definitionsMap T).getD [] ++
          servicesBaseDecls T services))) ∧
    (svcName (scanServices services maps) T =
       (match lastBaseDeclarer T services with
        | some owner => some (some owner)
        | none => svcName maps T)) := by
  induction services generalizing maps with
  | nil =>
    intro _
    rw [scanServices_nil]
    simp [servicesBaseDecls, lastBaseDeclarer]
  | cons s rest ih =>
    intro hp
    have hps : parserOkDocument s.typeDefs = true := hp s (by simp)
    have hpr : ∀ s' ∈ rest, parserOkDocument s'.typeDefs = true :=
      fun s' h => hp s' (by simp [h])
    rw [scanServices_cons]
    obtain ⟨sd, ss⟩ := scan_base_tracking s.name T s.typeDefs.definitions maps hps
    obtain ⟨ihd, ihs⟩ :=
      ih (processServiceDefinitions s.name s.typeDefs.definitions maps) hpr
    have hdecomp : servicesBaseDecls T (s :: rest) =
        baseDeclsOfDefs T s.typeDefs.definitions ++ servicesBaseDecls T rest := rfl
    constructor
    · rw [hdecomp]
      rcases eq_or_ne (baseDeclsOfDefs T s.typeDefs.definitions) [] with h1 | h1
      · rw [if_pos h1] at sd
        rw [sd] at ihd
        rw [h1, List.nil_append]
        exact ihd
      · rw [if_neg h1] at sd
        rcases eq_or_ne (servicesBaseDecls T rest) [] with h2 | h2
        · rw [if_pos h2] at ihd
          rw [ihd, sd, h2, List.append_nil]
          rw [if_neg h1]
        · rw [if_neg h2] at ihd
          rw [ihd, sd]
          have hne : baseDeclsOfDefs T s.typeDefs.definitions ++
              servicesBaseDecls T rest ≠ [] := by simp [h1]
          rw [if_neg hne]
          simp [List.append_assoc]
    · cases hlr : lastBaseDeclarer T rest with
      | some r =>
        have hcons : lastBaseDeclarer T (s :: rest) = some r := by
          simp [lastBaseDeclarer, hlr]
        simp only [hlr] at ihs
        simp only [hcons]
        exact ihs
      | none =>
        simp only [hlr] at ihs
        rcases eq_or_ne (baseDeclsOfDefs T s.typeDefs.definitions) [] with h1 | h1
        · have hdb : declaresBase s T = false := by
            unfold declaresBase
            rw [List.isEmpty_iff.mpr h1]
            rfl
          have hcons : lastBaseDeclarer T (s :: rest) = none := by
            simp [lastBaseDeclarer, hlr, hdb]
          rw [if_pos h1] at ss
          simp only [hcons]
          rw [ihs, ss]
        · have hdb : declaresBase s T = true := by
            unfold declaresBase
            cases hemp : (baseDeclsOfDefs T s.typeDefs.definitions).isEmpty
            · rfl
            · exact absurd (List.isEmpty_iff.mp hemp) h1
          have hcons : lastBaseDeclarer T (s :: rest) = some s.name := by
            simp [lastBaseDeclarer, hlr, hdb]
          rw [if_neg h1] at ss
          simp only [hcons]
          rw [ihs, ss]

theorem lastBaseDeclarer_eq_none (T : String) (services : List ServiceDefinition)
    (h : servicesBaseDecls T services = []) : lastBaseDeclarer T services = none := by
  induction services with
  | nil => rfl
  | cons s rest ih =>
    have hdecomp : servicesBaseDecls T (s :: rest) =
        baseDeclsOfDefs T s.typeDefs.definitions ++ servicesBaseDecls T rest := rfl
    rw [hdecomp] at h
    obtain ⟨h1, h2⟩ := List.append_eq_nil.mp h
    have hdb : declaresBase s T = false := by
      unfold declaresBase
      rw [List.isEmpty_iff.mpr h1]
      rfl
    simp [lastBaseDeclarer, ih h2, hdb]

/-- Claim C3 (confirmed): for every service list of parser-produced documents
and every type name `T` with at least one base declaration, the Ownership
Ledger records the name of the last base-declaring service (in input order)
as `T`'s owning service — extensions never overwrite it, so for a fragment
`A` declaring `T` and a fragment `B` only extending it, both orders record
`A` — and the Definitions Ledger entry of `T` is exactly the ordered list of
all of `T`'s stripped base declarations. -/
theorem buildMaps_owner_is_last_base_declarer
    (services : List ServiceDefinition) (maps : ServiceMaps) (T owner : String)
    (hp : ∀ s ∈ services, parserOkDocument s.typeDefs = true)
    (h : buildMapsFromServiceList services = some maps)
    (hlast : lastBaseDeclarer T services = some owner) :
    svcName maps T = some (some owner) ∧
    AssocMap.lookup maps.definitionsMap T = some (servicesBaseDecls T services) := by
  simp only [buildMapsFromServiceList] at h
  have hne : servicesBaseDecls T services ≠ [] := by
    intro hnil
    rw [lastBaseDeclarer_eq_none T services hnil] at hlast
    cases hlast
  obtain ⟨sd, ss⟩ := scanServices_base_tracking T services
    { typeToServiceMap := [], definitionsMap := [], extensionsMap := [] } hp
  rw [if_neg hne] at sd
  have sd' : AssocMap.lookup
      (scanServices services
        { typeToServiceMap := [], definitionsMap := [], extensionsMap := [] }).definitionsMap
      T = some (servicesBaseDecls T services) := by
    simpa [AssocMap.lookup] using sd
  have ss' : svcName
      (scanServices services
        { typeToServiceMap := [], definitionsMap := [], extensionsMap := [] }) T =
      some (some owner) := by
    simp only [hlast] at ss
    exact ss
  constructor
  · rw [synth_svcName_pres _ _ maps h T (by rw [sd']; rfl)]
    exact ss'
  · exact synth_defs_val _ _ maps h T _ sd'

/-- Witness for C3 at the spec's extension-first scenario `[B, A]`: `B` only
extends `Product`, `A` declares it; the recorded owner is `serviceA`. -/
theorem buildMaps_owner_is_last_base_declarer_witness :
    svcName c3Maps "Product" = some (some "serviceA") ∧
    AssocMap.lookup c3Maps.definitionsMap "Product" =
      some (servicesBaseDecls "Product" c3Services) :=
  buildMaps_owner_is_last_base_declarer c3Services c3Maps "Product" "serviceA"
    (by decide) (by rfl) (by rfl)

/-! ## Claim C6: stripping of `@external` fields -/

theorem all_filter_self {α : Type} (l : List α) (p : α → Bool) :
    (l.filter p).all p = true := by
  rw [List.all_eq_true]
  intro a ha
  exact (List.mem_filter.mp ha).2

theorem strip_typeDef_external_free (d : DefinitionNode) (node : TypeDefinitionNode)
    (heq : stripExternalFieldsFromTypeDefinition d = .typeDef node)
    (hk : node.kind = .objectType) : typeDefinitionExternalFree node = true := by
  cases d with
  | typeDef n =>
    by_cases hko : n.kind = TypeDefKind.objectType
    · cases hf : n.fields with
      | none =>
        have hs : stripExternalFieldsFromTypeDefinition (.typeDef n) = .typeDef n := by
          simp [stripExternalFieldsFromTypeDefinition, hko, hf]
        rw [hs] at heq
        injection heq with h2
        rw [← h2]
        unfold typeDefinitionExternalFree
        rw [hf]
        rfl
      | some fs =>
        have hs : stripExternalFieldsFromTypeDefinition (.typeDef n) =
            .typeDef { n with fields := some (fs.filter (fun field =>
              (findDirectivesOnTypeOrField (some field.directives) "external").length = 0)) } := by
          simp [stripExternalFieldsFromTypeDefinition, hko, hf]
        rw [hs] at heq
        injection heq with h2
        rw [← h2]
        unfold typeDefinitionExternalFree
        exact all_filter_self fs fieldHasNoExternalDirective
    · have hs : stripExternalFieldsFromTypeDefinition (.typeDef n) = .typeDef n := by
        simp [stripExternalFieldsFromTypeDefinition, hko]
      rw [hs] at heq
      injection heq with h2
      rw [← h2] at hk
      exact absurd hk hko
  | typeExt orig =>
    by_cases hko : orig.kind = TypeDefKind.objectType
    · cases hf : orig.fields <;>
        simp [stripExternalFieldsFromTypeDefinition, hko, hf] at heq
    · simp [stripExternalFieldsFromTypeDefinition, hko] at heq
  | otherDefinition =>
    simp [stripExternalFieldsFromTypeDefinition] at heq

theorem strip_typeExt_external_free (d : DefinitionNode) (node : TypeExtensionNode)
    (heq : stripExternalFieldsFromTypeDefinition d = .typeExt node)
    (hk : node.kind = .objectType) : typeExtensionExternalFree node = true := by
  cases d with
  | typeDef n =>
    by_cases hko : n.kind = TypeDefKind.objectType
    · cases hf : n.fields <;>
        simp [stripExternalFieldsFromTypeDefinition, hko, hf] at heq
    · simp [stripExternalFieldsFromTypeDefinition, hko] at heq
  | typeExt orig =>
    by_cases hko : orig.kind = TypeDefKind.objectType
    · cases hf : orig.fields with
      | none =>
        have hs : stripExternalFieldsFromTypeDefinition (.typeExt orig) = .typeExt orig := by
          simp [stripExternalFieldsFromTypeDefinition, hko, hf]
        rw [hs] at heq
        injection heq with h2
        rw [← h2]
        unfold typeExtensionExternalFree
        rw [hf]
        rfl
      | some fs =>
        have hs : stripExternalFieldsFromTypeDefinition (.typeExt orig) =
            .typeExt { orig with fields := some (fs.filter (fun field =>
              (findDirectivesOnTypeOrField (some field.directives) "external").length = 0)) } := by
          simp [stripExternalFieldsFromTypeDefinition, hko, hf]
        rw [hs] at heq
        injection heq with h2
        rw [← h2]
        unfold typeExtensionExternalFree
        exact all_filter_self fs fieldHasNoExternalDirective
    · have hs : stripExternalFieldsFromTypeDefinition (.typeExt orig) = .typeExt orig := by
        simp [stripExternalFieldsFromTypeDefinition, hko]
      rw [hs] at heq
      injection heq with h2
      rw [← h2] at hk
      exact absurd hk hko
  | otherDefinition =>
    simp [stripExternalFieldsFromTypeDefinition] at heq

theorem scan_defs_external_free (S : String) (L : List DefinitionNode)
    (maps : ServiceMaps) :
    (∀ n l, AssocMap.lookup maps.definitionsMap n = some l → ∀ d ∈ l,
       d.kind = .objectType → typeDefinitionExternalFree d = true) →
    ∀ n l, AssocMap.lookup (processServiceDefinitions S L maps).definitionsMap n = some l →
      ∀ d ∈ l, d.kind = .objectType → typeDefinitionExternalFree d = true := by
  induction L, maps using processServiceDefinitions.induct S with
  | case1 maps =>
    intro h; rw [processDefs_nil]; exact h
  | case2 d rest maps node heq ih =>
    intro h
    rw [processDefs_cons_typeDef S d rest maps node heq]
    apply ih
    intro n l hl d' hd' hk'
    rw [addBase_defs, AssocMap.lookup_insert] at hl
    by_cases hn : n = node.name
    · rw [if_pos hn] at hl
      injection hl with hl
      rw [← hl] at hd'
      rcases List.mem_append.mp hd' with hmem | hmem
      · cases hold : AssocMap.lookup maps.definitionsMap node.name with
        | none => rw [hold] at hmem; cases hmem
        | some old =>
          rw [hold] at hmem
          exact h node.name old hold d' hmem hk'
      · rcases List.mem_singleton.mp hmem with rfl
        exact strip_typeDef_external_free d _ heq hk'
    · rw [if_neg hn] at hl
      exact h n l hl d' hd' hk'
  | case3 d rest maps node heq hk hf =>
    intro h
    rw [processDefs_cons_objExt_break S d rest maps node heq hk hf]; exact h
  | case4 d rest maps node heq hk fs hf ih =>
    intro h
    rw [processDefs_cons_objExt S d rest maps node fs heq hk hf]
    apply ih
    rw [push_defs, addExt_defs]
    exact h
  | case5 d rest maps node heq hk1 hk2 hv =>
    intro h
    rw [processDefs_cons_enumExt_break S d rest maps node heq hk1 hk2 hv]; exact h
  | case6 d rest maps node heq hk1 hk2 vs hv ih =>
    intro h
    rw [processDefs_cons_enumExt S d rest maps node vs heq hk1 hk2 hv]
    apply ih
    rw [push_defs, addExt_defs]
    exact h
  | case7 d rest maps node heq hk1 hk2 ih =>
    intro h
    rw [processDefs_cons_otherExt S d rest maps node heq hk1 hk2]
    apply ih
    rw [push_defs]
    exact h
  | case8 d rest maps heq ih =>
    intro h
    rw [processDefs_cons_other S d rest maps heq]
    exact ih h

theorem scan_exts_external_free (S : String) (L : List DefinitionNode)
    (maps : ServiceMaps) :
    (∀ n l, AssocMap.lookup maps.extensionsMap n = some l → ∀ e ∈ l,
       e.kind = .objectType → typeExtensionExternalFree e = true) →
    ∀ n l, AssocMap.lookup (processServiceDefinitions S L maps).extensionsMap n = some l →
      ∀ e ∈ l, e.kind = .objectType → typeExtensionExternalFree e = true := by
  induction L, maps using processServiceDefinitions.induct S with
  | case1 maps =>
    intro h; rw [processDefs_nil]; exact h
  | case2 d rest maps node heq ih =>
    intro h
    rw [processDefs_cons_typeDef S d rest maps node heq]
    apply ih
    rw [addBase_exts]
    exact h
  | case3 d rest maps node heq hk hf =>
    intro h
    rw [processDefs_cons_objExt_break S d rest maps node heq hk hf]; exact h
  | case4 d rest maps node heq hk fs hf ih =>
    intro h
    rw [processDefs_cons_objExt S d rest maps node fs heq hk hf]
    apply ih
    intro n l hl e he hke
    rw [push_exts, addExt_exts, AssocMap.lookup_insert] at hl
    by_cases hn : n = node.name
    · rw [if_pos hn] at hl
      injection hl with hl
      rw [← hl] at he
      rcases List.mem_append.mp he with hmem | hmem
      · cases hold : AssocMap.lookup maps.extensionsMap node.name with
        | none => rw [hold] at hmem; cases hmem
        | some old =>
          rw [hold] at hmem
          exact h node.name old hold e hmem hke
      · rcases List.mem_singleton.mp hmem with rfl
        exact strip_typeExt_external_free d _ heq hke
    · rw [if_neg hn] at hl
      exact h n l hl e he hke
  | case5 d rest maps node heq hk1 hk2 hv =>
    intro h
    rw [processDefs_cons_enumExt_break S d rest maps node heq hk1 hk2 hv]; exact h
  | case6 d rest maps node heq hk1 hk2 vs hv ih =>
    intro h
    rw [processDefs_cons_enumExt S d rest maps node vs heq hk1 hk2 hv]
    apply ih
    intro n l hl e he hke
    rw [push_exts, addExt_exts, AssocMap.lookup_insert] at hl
    by_cases hn : n = node.name
    · rw [if_pos hn] at hl
      injection hl with hl
      rw [← hl] at he
      rcases List.mem_append.mp he with hmem | hmem
      · cases hold : AssocMap.lookup maps.extensionsMap node.name with
        | none => rw [hold] at hmem; cases hmem
        | some old =>
          rw [hold] at hmem
          exact h node.name old hold e hmem hke
      · rcases List.mem_singleton.mp hmem with rfl
        exact strip_typeExt_external_free d _ heq hke
    · rw [if_neg hn] at hl
      exact h n l hl e he hke
  | case7 d rest maps node heq hk1 hk2 ih =>
    intro h
    rw [processDefs_cons_otherExt S d rest maps node heq hk1 hk2]
    apply ih
    intro n l hl e he hke
    rw [push_exts, AssocMap.lookup_insert] at hl
    by_cases hn : n = node.name
    · rw [if_pos hn] at hl
      injection hl with hl
      rw [← hl] at he
      rcases List.mem_append.mp he with hmem | hmem
      · cases hold : AssocMap.lookup maps.extensionsMap node.name with
        | none => rw [hold] at hmem; cases hmem
        | some old =>
          rw [hold] at hmem
          exact h node.name old hold e hmem hke
      · rcases List.mem_singleton.mp hmem with rfl
        exact strip_typeExt_external_free d _ heq hke
    · rw [if_neg hn] at hl
      exact h n l hl e he hke
  | case8 d rest maps heq ih =>
    intro h
    rw [processDefs_cons_other S d rest maps heq]
    exact ih h

theorem scanServices_defs_external_free (services : List ServiceDefinition)
    (maps : ServiceMaps) :
    (∀ n l, AssocMap.lookup maps.definitionsMap n = some l → ∀ d ∈ l,
       d.kind = .objectType → typeDefinitionExternalFree d = true) →
    ∀ n l, AssocMap.lookup (scanServices services maps).definitionsMap n = some l →
      ∀ d ∈ l, d.kind = .objectType → typeDefinitionExternalFree d = true := by
  induction services generalizing maps with
  | nil => intro h; rw [scanServices_nil]; exact h
  | cons s rest ih =>
    intro h
    rw [scanServices_cons]
    exact ih _ (scan_defs_external_free s.name s.typeDefs.definitions maps h)

theorem scanServices_exts_external_free (services : List ServiceDefinition)
    (maps : ServiceMaps) :
    (∀ n l, AssocMap.lookup maps.extensionsMap n = some l → ∀ e ∈ l,
       e.kind = .objectType → typeExtensionExternalFree e = true) →
    ∀ n l, AssocMap.lookup (scanServices services maps).extensionsMap n = some l →
      ∀ e ∈ l, e.kind = .objectType → typeExtensionExternalFree e = true := by
  induction services generalizing maps with
  | nil => intro h; rw [scanServices_nil]; exact h
  | cons s rest ih =>
    intro h
    rw [scanServices_cons]
    exact ih _ (scan_exts_external_free s.name s.typeDefs.definitions maps h)

theorem synth_defs_external_free (ks : List String) (maps : ServiceMaps) :
    ∀ maps', synthesizeMissingBaseTypes ks maps = some maps' →
      (∀ n l, AssocMap.lookup maps.definitionsMap n = some l → ∀ d ∈ l,
         d.kind = .objectType → typeDefinitionExternalFree d = true) →
      ∀ n l, AssocMap.lookup maps'.definitionsMap n = some l → ∀ d ∈ l,
        d.kind = .objectType → typeDefinitionExternalFree d = true := by
  induction ks, maps using synthesizeMissingBaseTypes.induct with
  | case1 maps =>
    intro maps' h hfree
    rw [synth_nil] at h
    cases h; exact hfree
  | case2 tn rest maps l0 hdef ih =>
    intro maps' h hfree
    rw [synth_cons_present tn rest maps l0 hdef] at h
    exact ih maps' h hfree
  | case3 tn rest maps hdef htts =>
    intro maps' h
    rw [synth_cons_crash tn rest maps hdef htts] at h
    cases h
  | case4 tn rest maps hdef defsIns entry htts ih =>
    intro maps' h hfree
    rw [synth_cons_missing tn rest maps entry hdef htts] at h
    apply ih maps' h
    intro n l hl d hd hk
    rw [AssocMap.lookup_insert] at hl
    by_cases hn : n = tn
    · rw [if_pos hn] at hl
      injection hl with hl
      rw [← hl] at hd
      rcases List.mem_singleton.mp hd with rfl
      rfl
    · rw [if_neg hn] at hl
      exact hfree n l hl d hd hk

/-- Claim C6 (corrected): the Field Stripper applies only to object-type
declarations and object-type extensions — not to input-object kinds.  For
those object nodes it removes exactly the `@external`-annotated fields,
keeping the rest in their original order (a filter), and consequently every
object-kind node stored in either ledger by `buildMapsFromServiceList` is
free of `@external` fields.  Input-object (and interface) nodes pass into
the ledgers unchanged — see the counterexample. -/
theorem strip_external_only_on_object_nodes :
    (∀ node : TypeDefinitionNode, node.kind = .objectType →
       stripExternalFieldsFromTypeDefinition (.typeDef node) =
         .typeDef { node with
           fields := node.fields.map (List.filter fieldHasNoExternalDirective) }) ∧
    (∀ node : TypeExtensionNode, node.kind = .objectType →
       stripExternalFieldsFromTypeDefinition (.typeExt node) =
         .typeExt { node with
           fields := node.fields.map (List.filter fieldHasNoExternalDirective) }) ∧
    (∀ services maps, buildMapsFromServiceList services = some maps →
       (∀ n l, AssocMap.lookup maps.definitionsMap n = some l → ∀ d ∈ l,
          d.kind = .objectType → typeDefinitionExternalFree d = true) ∧
       (∀ n l, AssocMap.lookup maps.extensionsMap n = some l → ∀ e ∈ l,
          e.kind = .objectType → typeExtensionExternalFree e = true)) := by
  refine ⟨?_, ?_, ?_⟩
  · intro node hk
    obtain ⟨kind, name, directives, fields, values⟩ := node
    cases hk
    cases fields <;> rfl
  · intro node hk
    obtain ⟨kind, name, directives, fields, values⟩ := node
    cases hk
    cases fields <;> rfl
  · intro services maps h
    simp only [buildMapsFromServiceList] at h
    have hinit : ∀ (n : String) (l : List TypeDefinitionNode),
        AssocMap.lookup
          ({ typeToServiceMap := [], definitionsMap := [], extensionsMap := [] } :
            ServiceMaps).definitionsMap n = some l → ∀ d ∈ l,
          d.kind = .objectType → typeDefinitionExternalFree d = true := by
      intro n l hl
      cases hl
    have hinit' : ∀ (n : String) (l : List TypeExtensionNode),
        AssocMap.lookup
          ({ typeToServiceMap := [], definitionsMap := [], extensionsMap := [] } :
            ServiceMaps).extensionsMap n = some l → ∀ e ∈ l,
          e.kind = .objectType → typeExtensionExternalFree e = true := by
      intro n l hl
      cases hl
    have hdefs := scanServices_defs_external_free services _ hinit
    have hexts := scanServices_exts_external_free services _ hinit'
    constructor
    · exact synth_defs_external_free _ _ maps h hdefs
    · have hee := synth_exts_eq _ _ maps h
      intro n l hl
      rw [hee] at hl
      exact hexts n l hl

/-- Counterexample for C6 as stated: on an input-object extension carrying an
`@external` field, the field is not removed — the node enters the Extensions
Ledger with its `@external` field intact. -/
theorem strip_external_misses_input_object_counterexample :
    ¬ (∀ services maps, buildMapsFromServiceList services = some maps →
        ∀ n l, AssocMap.lookup maps.extensionsMap n = some l →
          ∀ e ∈ l, typeExtensionExternalFree e = true) := by
  intro h
  have := h c6Services c6Maps (by rfl) "I" [c6ExtensionNode] (by rfl)
    c6ExtensionNode (by simp)
  exact absurd this (by decide)

/-- Witness for C6's corrected statement: composing an object declaration
with an `@external`-annotated `sku` and a plain `price` stores the stripped
node — only `price` remains, and it is free of `@external`. -/
theorem strip_external_only_on_object_nodes_witness :
    typeDefinitionExternalFree
      { kind := .objectType, name := "Product", directives := [],
        fields := some [{ name := "price", directives := [] }],
        values := none } = true :=
  (strip_external_only_on_object_nodes.2.2 c6WitnessServices c6WitnessMaps
      (by rfl)).1 "Product"
    [{ kind := .objectType, name := "Product", directives := [],
       fields := some [{ name := "price", directives := [] }],
       values := none }]
    (by decide)
    { kind := .objectType, name := "Product", directives := [],
      fields := some [{ name := "price", directives := [] }],
      values := none }
    (by decide) rfl

/-! ## Claim C8: the Schema Assembler -/

theorem lookup_extendDefs_fold (defs : List TypeDefinitionNode)
    (init : AssocMap GraphQLNamedType) (name : String) :
    AssocMap.lookup
        (defs.foldl (fun ts node => AssocMap.insert ts node.name (typeFromDefinition node)) init)
        name =
      (match lastDefinitionOf name defs with
       | some d => some (typeFromDefinition d)
       | none => AssocMap.lookup init name) := by
  induction defs generalizing init with
  | nil => rfl
  | cons d rest ih =>
    rw [List.foldl_cons, ih]
    cases hlr : lastDefinitionOf name rest with
    | some r => simp [lastDefinitionOf, hlr]
    | none =>
      simp only [lastDefinitionOf, hlr]
      rcases eq_or_ne d.name name with h | h
      · rw [if_pos h, AssocMap.lookup_insert, if_pos h.symm]
      · rw [if_neg h, AssocMap.lookup_insert,
          if_neg (fun hx : name = d.name => h hx.symm)]

theorem isSome_lookup_insertFields (fs : List FieldDefinitionNode)
    (m : AssocMap GraphQLField) (fname : String) :
    (AssocMap.lookup (insertFields m fs) fname).isSome ↔
      ((AssocMap.lookup m fname).isSome ∨ fname ∈ fs.map FieldDefinitionNode.name) := by
  induction fs generalizing m with
  | nil => simp [insertFields]
  | cons f rest ih =>
    have hstep : insertFields m (f :: rest) =
        insertFields (AssocMap.insert m f.name (fieldFromFieldDefinition f)) rest := rfl
    rw [hstep, ih]
    rw [AssocMap.isSome_lookup_insert_iff]
    simp only [List.map_cons, List.mem_cons]
    tauto

theorem extendExts_fold (exts : List TypeExtensionNode)
    (ts : AssocMap GraphQLNamedType) (name : String) (t : GraphQLNamedType)
    (h : AssocMap.lookup ts name = some t) :
    ∃ t', AssocMap.lookup (exts.foldl applyExtension ts) name = some t' ∧
      ∀ fname, (AssocMap.lookup t'.fields fname).isSome ↔
        ((AssocMap.lookup t.fields fname).isSome ∨
         fname ∈ extFieldNamesOf name exts) := by
  induction exts generalizing ts t with
  | nil =>
    refine ⟨t, h, ?_⟩
    intro fname
    simp [extFieldNamesOf]
  | cons e rest ih =>
    rw [List.foldl_cons]
    rcases eq_or_ne e.name name with hen | hen
    · have happ : applyExtension ts e =
          AssocMap.insert ts e.name
            { t with fields := insertFields t.fields (e.fields.getD []) } := by
        unfold applyExtension
        rw [hen, h]
      have hlook : AssocMap.lookup (applyExtension ts e) name =
          some { t with fields := insertFields t.fields (e.fields.getD []) } := by
        rw [happ, hen, AssocMap.lookup_insert_self]
      obtain ⟨t', ht', hiff⟩ := ih _ _ hlook
      refine ⟨t', ht', ?_⟩
      intro fname
      rw [hiff fname]
      have : (AssocMap.lookup (insertFields t.fields (e.fields.getD [])) fname).isSome ↔
          ((AssocMap.lookup t.fields fname).isSome ∨
           fname ∈ (e.fields.getD []).map FieldDefinitionNode.name) :=
        isSome_lookup_insertFields _ _ _
      rw [this]
      simp only [extFieldNamesOf, hen, if_pos rfl, List.mem_append]
      tauto
    · have hlook : AssocMap.lookup (applyExtension ts e) name = some t := by
        unfold applyExtension
        cases hx : AssocMap.lookup ts e.name with
        | none => exact h
        | some u =>
          rw [AssocMap.lookup_insert_ne _ _ _ _ (fun hx' : name = e.name => hen hx'.symm)]
          exact h
      obtain ⟨t', ht', hiff⟩ := ih _ _ hlook
      refine ⟨t', ht', ?_⟩
      intro fname
      rw [hiff fname]
      simp only [extFieldNamesOf, if_neg hen, List.nil_append]

/-- Claim C8 (corrected): `buildSchemaFromDefinitionsAndExtensions` always
extends the schema with both the definitions document and the extensions
document, even when validation reported errors, and the returned error list
is exactly the definitions-pass errors followed by the extensions-pass
errors.  The shape of a composed type, however, is not the union of *every*
declaration's fields: the underlying keyed type map lets the last declaration
of a type name replace earlier ones wholesale, so a merged type holds exactly
the fields of its last base declaration together with all
extension-contributed fields (later same-named fields replacing earlier
ones). -/
theorem buildSchema_always_extends_and_orders_errors
    (dm : AssocMap (List TypeDefinitionNode))
    (em : AssocMap (List TypeExtensionNode)) :
    ((buildSchemaFromDefinitionsAndExtensions dm em).errors =
      validateDefinitionsDocument (flattenValues dm) ++
      validateExtensionsDocument
        (extendSchemaWithDefinitions initialComposedSchema (flattenValues dm))
        (flattenValues em)) ∧
    ((buildSchemaFromDefinitionsAndExtensions dm em).schema =
      extendSchemaWithExtensions
        (extendSchemaWithDefinitions initialComposedSchema (flattenValues dm))
        (flattenValues em)) ∧
    (∀ name d, lastDefinitionOf name (flattenValues dm) = some d →
      ∃ t, AssocMap.lookup
          (buildSchemaFromDefinitionsAndExtensions dm em).schema.types name = some t ∧
        ∀ fname, (AssocMap.lookup t.fields fname).isSome ↔
          (fname ∈ (d.fields.getD []).map FieldDefinitionNode.name ∨
           fname ∈ extFieldNamesOf name (flattenValues em))) := by
  refine ⟨rfl, rfl, ?_⟩
  intro name d hd
  have hdefs : AssocMap.lookup
      (extendSchemaWithDefinitions initialComposedSchema (flattenValues dm)).types name =
      some (typeFromDefinition d) := by
    show AssocMap.lookup
      ((flattenValues dm).foldl
        (fun ts node => AssocMap.insert ts node.name (typeFromDefinition node))
        initialComposedSchema.types) name = some (typeFromDefinition d)
    rw [lookup_extendDefs_fold, hd]
  obtain ⟨t, ht, hiff⟩ := extendExts_fold (flattenValues em) _ name _ hdefs
  refine ⟨t, ht, ?_⟩
  intro fname
  rw [hiff fname]
  have hbase : (AssocMap.lookup (typeFromDefinition d).fields fname).isSome ↔
      fname ∈ (d.fields.getD []).map FieldDefinitionNode.name := by
    show (AssocMap.lookup (insertFields [] (d.fields.getD [])) fname).isSome ↔ _
    rw [isSome_lookup_insertFields]
    simp [AssocMap.lookup]
  rw [hbase]

/-- Counterexample for C8 as stated: the composed schema does not contain
the union of the fields of *every* declaration of a type.  With `Product`
declared twice (first with `sku`/`name`, then with `id`/`name`/`price`), the
composed `Product` has no `sku` field — the newer declaration replaced the
older one wholesale, exactly as the repository test `handles collisions of
base types as expected (newest takes precedence)` records. -/
theorem buildSchema_union_of_all_declarations_counterexample :
    ¬ (∀ (dm : AssocMap (List TypeDefinitionNode))
         (em : AssocMap (List TypeExtensionNode)) name d f,
        d ∈ (AssocMap.lookup dm name).getD [] →
        f ∈ d.fields.getD [] →
        ((AssocMap.lookup
            (buildSchemaFromDefinitionsAndExtensions dm em).schema.types name).bind
          (fun t => AssocMap.lookup t.fields f.name)).isSome) := by
  intro h
  have := h c8DefinitionsMap [] "Product"
    { kind := .objectType, name := "Product", directives := [],
      fields := some [{ name := "sku", directives := [] },
                      { name := "name", directives := [] }],
      values := none }
    { name := "sku", directives := [] }
    (by decide) (by decide)
  exact absurd this (by decide)

/-- Witness for C8's corrected statement: with `Product` declared twice and
extended with `reviews`, the composed `Product` contains the extension field
`reviews`. -/
theorem buildSchema_always_extends_and_orders_errors_witness :
    ((AssocMap.lookup
        (buildSchemaFromDefinitionsAndExtensions c8DefinitionsMap
          c8ExtensionsMap).schema.types "Product").bind
      (fun t => AssocMap.lookup t.fields "reviews")).isSome := by
  obtain ⟨t, ht, hiff⟩ :=
    (buildSchema_always_extends_and_orders_errors c8DefinitionsMap c8ExtensionsMap).2.2
      "Product"
      { kind := .objectType, name := "Product", directives := [],
        fields := some [{ name := "id", directives := [] },
                        { name := "name", directives := [] },
                        { name := "price", directives := [] }],
        values := none }
      (by decide)
  rw [ht]
  exact ((hiff "reviews").mpr (Or.inr (by decide)))

/-! ## Claim C10: shape of the attached federation metadata -/

theorem AssocMap.lookup_mem {α : Type} (m : AssocMap α) (k : String) (v : α)
    (h : AssocMap.lookup m k = some v) : (k, v) ∈ m := by
  induction m with
  | nil => cases h
  | cons kv rest ih =>
    obtain ⟨k0, w⟩ := kv
    unfold AssocMap.lookup at h
    by_cases hk : k0 = k
    · rw [if_pos hk] at h
      injection h with h
      rw [← h, hk]
      exact List.mem_cons_self _ _
    · rw [if_neg hk] at h
      exact List.mem_cons_of_mem _ (ih h)

theorem fieldEvolution_refl (f : GraphQLField) : fieldEvolution f f :=
  ⟨rfl, fun _ => rfl, fun _ => rfl⟩

theorem fieldEvolution_trans (f g h : GraphQLField)
    (h1 : fieldEvolution f g) (h2 : fieldEvolution g h) : fieldEvolution f h := by
  obtain ⟨a1, p1, r1⟩ := h1
  obtain ⟨a2, p2, r2⟩ := h2
  refine ⟨a2.trans a1, ?_, ?_⟩
  · intro hd
    rw [p2 (by rw [a1]; exact hd), p1 hd]
  · intro hd
    rw [r2 (by rw [a1]; exact hd), r1 hd]

theorem annotateFieldProvides_evolution (f f' : GraphQLField)
    (h : annotateFieldProvides f = some f') : fieldEvolution f f' := by
  unfold annotateFieldProvides at h
  cases hd : findDirectivesOnTypeOrField (some f.astNode.directives) "provides" with
  | nil =>
    simp only [hd] at h
    injection h with h
    rw [← h]
    exact fieldEvolution_refl f
  | cons d rest =>
    simp only [hd] at h
    cases harg : d.arguments with
    | none =>
      simp only [harg] at h
      injection h with h
      rw [← h]
      exact fieldEvolution_refl f
    | some args =>
      cases args with
      | nil =>
        simp only [harg] at h
        exact Option.noConfusion h
      | cons a as =>
        simp only [harg] at h
        cases hav : a.value with
        | otherValue =>
          simp only [hav] at h
          injection h with h
          rw [← h]
          exact fieldEvolution_refl f
        | stringValue s =>
          simp only [hav] at h
          cases hp : parseSelections s with
          | none =>
            simp only [hp] at h
            exact Option.noConfusion h
          | some sels =>
            simp only [hp, Option.map_some'] at h
            injection h with h
            rw [← h]
            refine ⟨rfl, ?_, fun _ => rfl⟩
            intro hnil
            rw [hd] at hnil
            cases hnil

theorem annotateFieldsProvides_anatomy (m : AssocMap GraphQLField) :
    ∀ m', annotateFieldsProvides m = some m' →
      ∀ k f', AssocMap.lookup m' k = some f' →
        ∃ f, AssocMap.lookup m k = some f ∧ fieldEvolution f f' := by
  induction m with
  | nil =>
    intro m' h
    unfold annotateFieldsProvides at h
    injection h with h
    rw [← h]
    intro k f' hk
    cases hk
  | cons kv rest ih =>
    obtain ⟨k0, f0⟩ := kv
    intro m' h
    unfold annotateFieldsProvides at h
    cases hf0 : annotateFieldProvides f0 with
    | none => rw [hf0] at h; cases h
    | some f0' =>
      rw [hf0] at h
      cases hrest : annotateFieldsProvides rest with
      | none => rw [hrest] at h; cases h
      | some rest' =>
        rw [hrest] at h
        injection h with h
        rw [← h]
        intro k f' hk
        unfold AssocMap.lookup at hk
        by_cases hk0 : k0 = k
        · rw [if_pos hk0] at hk
          injection hk with hk
          refine ⟨f0, ?_, ?_⟩
          · unfold AssocMap.lookup
            rw [if_pos hk0]
          · rw [← hk]
            exact annotateFieldProvides_evolution f0 f0' hf0
        · rw [if_neg hk0] at hk
          obtain ⟨f, hf, hev⟩ := ih rest' hrest k f' hk
          refine ⟨f, ?_, hev⟩
          unfold AssocMap.lookup
          rw [if_neg hk0]
          exact hf

theorem filterMap_eq_nil_of_forall_none {α β : Type} (f : α → Option β)
    (l : List α) (h : ∀ a ∈ l, f a = none) : l.filterMap f = [] := by
  induction l with
  | nil => rfl
  | cons a l ih =>
    have ha : f a = none := h a (List.mem_cons_self a l)
    simp only [List.filterMap_cons, ha]
    exact ih (fun b hb => h b (List.mem_cons_of_mem a hb))

theorem collectKeySelections_filterMap (ds : List DirectiveNode)
    (raw : List (Option (List String))) (h : collectKeySelections ds = some raw) :
    raw.filterMap id = ds.filterMap usableKeySelection := by
  induction ds generalizing raw with
  | nil =>
    simp only [collectKeySelections] at h
    injection h with h
    rw [← h]
    rfl
  | cons d rest ih =>
    simp only [collectKeySelections] at h
    cases harg : d.arguments with
    | none =>
      simp only [harg] at h
      cases hr : collectKeySelections rest with
      | none =>
        rw [hr, Option.map_none'] at h
        exact Option.noConfusion h
      | some l =>
        rw [hr, Option.map_some'] at h
        injection h with h
        rw [← h]
        have hu : usableKeySelection d = none := by
          simp only [usableKeySelection, harg]
        simp only [List.filterMap_cons, hu, id_eq]
        exact ih l hr
    | some args =>
      cases args with
      | nil =>
        simp only [harg] at h
        exact Option.noConfusion h
      | cons a as =>
        simp only [harg] at h
        cases hav : a.value with
        | stringValue s =>
          simp only [hav] at h
          cases hp : parseSelections s with
          | none =>
            simp only [hp] at h
            exact Option.noConfusion h
          | some sels =>
            simp only [hp] at h
            cases hr : collectKeySelections rest with
            | none =>
              rw [hr, Option.map_none'] at h
              exact Option.noConfusion h
            | some l =>
              rw [hr, Option.map_some'] at h
              injection h with h
              rw [← h]
              have hu : usableKeySelection d = some sels := by
                simp only [usableKeySelection, harg, hav, hp]
              simp only [List.filterMap_cons, hu, id_eq]
              rw [ih l hr]
        | otherValue =>
          simp only [hav] at h
          cases hr : collectKeySelections rest with
          | none =>
            rw [hr, Option.map_none'] at h
            exact Option.noConfusion h
          | some l =>
            rw [hr, Option.map_some'] at h
            injection h with h
            rw [← h]
            have hu : usableKeySelection d = none := by
              simp only [usableKeySelection, harg, hav]
            simp only [List.filterMap_cons, hu, id_eq]
            exact ih l hr

theorem annotateObjectTypeKeys_anatomy (t t2 : GraphQLNamedType)
    (h : annotateObjectTypeKeys t = some t2) :
    t2.fields = t.fields ∧ t2.kind = t.kind ∧ t2.astNode = t.astNode ∧
    t2.federation.keys =
      some ((findDirectivesOnTypeOrField
        (t.astNode.map TypeDefinitionNode.directives) "key").filterMap
          usableKeySelection) := by
  unfold annotateObjectTypeKeys at h
  cases hc : collectKeySelections
      (findDirectivesOnTypeOrField (t.astNode.map TypeDefinitionNode.directives) "key") with
  | none =>
    simp only [hc, Option.map_none'] at h
    exact Option.noConfusion h
  | some raw =>
    simp only [hc, Option.map_some'] at h
    injection h with h
    rw [← h]
    refine ⟨rfl, rfl, rfl, ?_⟩
    show some (raw.filterMap id) = _
    rw [collectKeySelections_filterMap _ raw hc]

theorem annotateExtensionFields_step (t : GraphQLNamedType) (k v : String)
    (rest : AssocMap String) (t' : GraphQLNamedType)
    (h : annotateExtensionFields t ((k, v) :: rest) = some t') :
    ∃ tmid, (tmid.kind = t.kind ∧ tmid.astNode = t.astNode ∧
             tmid.federation = t.federation ∧
             (∀ k2 f', AssocMap.lookup tmid.fields k2 = some f' →
               ∃ f, AssocMap.lookup t.fields k2 = some f ∧ fieldEvolution f f')) ∧
    annotateExtensionFields tmid rest = some t' := by
  unfold annotateExtensionFields at h
  by_cases hk : t.kind = TypeDefKind.objectType
  · rw [if_pos hk] at h
    cases hl : AssocMap.lookup t.fields k with
    | none =>
      simp only [hl] at h
      exact Option.noConfusion h
    | some f0 =>
      simp only [hl] at h
      cases hfd : findDirectivesOnTypeOrField (some f0.astNode.directives) "requires" with
      | nil =>
        simp only [hfd] at h
        refine ⟨_, ⟨?_, ?_, ?_, ?_⟩, h⟩
        · rfl
        · rfl
        · rfl
        intro k2 f' hf'
        rw [AssocMap.lookup_insert] at hf'
        by_cases hk2 : k2 = k
        · rw [if_pos hk2] at hf'
          injection hf' with hf'
          refine ⟨f0, by rw [hk2]; exact hl, ?_⟩
          rw [← hf']
          exact ⟨rfl, fun _ => rfl, fun _ => rfl⟩
        · rw [if_neg hk2] at hf'
          exact ⟨f', hf', fieldEvolution_refl f'⟩
      | cons d rest1 =>
        simp only [hfd] at h
        cases harg : d.arguments with
        | none =>
          simp only [harg] at h
          refine ⟨_, ⟨?_, ?_, ?_, ?_⟩, h⟩
          · rfl
          · rfl
          · rfl
          intro k2 f' hf'
          rw [AssocMap.lookup_insert] at hf'
          by_cases hk2 : k2 = k
          · rw [if_pos hk2] at hf'
            injection hf' with hf'
            refine ⟨f0, by rw [hk2]; exact hl, ?_⟩
            rw [← hf']
            exact ⟨rfl, fun _ => rfl, fun _ => rfl⟩
          · rw [if_neg hk2] at hf'
            exact ⟨f', hf', fieldEvolution_refl f'⟩
        | some args =>
          cases args with
          | nil =>
            simp only [harg] at h
            exact Option.noConfusion h
          | cons a as =>
            simp only [harg] at h
            cases hav : a.value with
            | otherValue =>
              simp only [hav] at h
              refine ⟨_, ⟨?_, ?_, ?_, ?_⟩, h⟩
              · rfl
              · rfl
              · rfl
              intro k2 f' hf'
              rw [AssocMap.lookup_insert] at hf'
              by_cases hk2 : k2 = k
              · rw [if_pos hk2] at hf'
                injection hf' with hf'
                refine ⟨f0, by rw [hk2]; exact hl, ?_⟩
                rw [← hf']
                exact ⟨rfl, fun _ => rfl, fun _ => rfl⟩
              · rw [if_neg hk2] at hf'
                exact ⟨f', hf', fieldEvolution_refl f'⟩
            | stringValue s =>
              simp only [hav] at h
              cases hp : parseSelections s with
              | none =>
                simp only [hp] at h
                exact Option.noConfusion h
              | some sels =>
                simp only [hp] at h
                refine ⟨_, ⟨?_, ?_, ?_, ?_⟩, h⟩
                · rfl
                · rfl
                · rfl
                intro k2 f' hf'
                rw [AssocMap.lookup_insert] at hf'
                by_cases hk2 : k2 = k
                · rw [if_pos hk2] at hf'
                  injection hf' with hf'
                  refine ⟨f0, by rw [hk2]; exact hl, ?_⟩
                  rw [← hf']
                  refine ⟨rfl, fun _ => rfl, ?_⟩
                  intro hnil
                  rw [hfd] at hnil
                  cases hnil
                · rw [if_neg hk2] at hf'
                  exact ⟨f', hf', fieldEvolution_refl f'⟩
  · rw [if_neg hk] at h
    exact ⟨t, ⟨rfl, rfl, rfl, fun k2 f' hf' => ⟨f', hf', fieldEvolution_refl f'⟩⟩, h⟩

theorem annotateExtensionFields_anatomy (l : AssocMap String) :
    ∀ t t', annotateExtensionFields t l = some t' →
      t'.kind = t.kind ∧ t'.astNode = t.astNode ∧ t'.federation = t.federation ∧
      (∀ k f', AssocMap.lookup t'.fields k = some f' →
        ∃ f, AssocMap.lookup t.fields k = some f ∧ fieldEvolution f f') := by
  induction l with
  | nil =>
    intro t t' h
    unfold annotateExtensionFields at h
    injection h with h
    rw [← h]
    exact ⟨rfl, rfl, rfl, fun k f' hf' => ⟨f', hf', fieldEvolution_refl f'⟩⟩
  | cons kv rest ih =>
    obtain ⟨k, v⟩ := kv
    intro t t' h
    obtain ⟨tmid, ⟨hkind, hast, hfed, hfields⟩, hrest⟩ :=
      annotateExtensionFields_step t k v rest t' h
    obtain ⟨ihk, iha, ihf, ihfl⟩ := ih tmid t' hrest
    refine ⟨ihk.trans hkind, iha.trans hast, ihf.trans hfed, ?_⟩
    intro k2 f' hf'
    obtain ⟨fmid, hfmid, hev2⟩ := ihfl k2 f' hf'
    obtain ⟨f, hf, hev1⟩ := hfields k2 fmid hfmid
    exact ⟨f, hf, fieldEvolution_trans f fmid f' hev1 hev2⟩

theorem annotateEntry_anatomy (schema : GraphQLSchema) (nm : String)
    (e : TypeToServiceEntry) (schema2 : GraphQLSchema)
    (h : annotateSchemaForEntry schema nm e = some schema2) :
    (∀ n, n ≠ nm → AssocMap.lookup schema2.types n = AssocMap.lookup schema.types n) ∧
    (∀ t', AssocMap.lookup schema2.types nm = some t' →
      ∃ t, AssocMap.lookup schema.types nm = some t ∧
        t'.kind = t.kind ∧ t'.astNode = t.astNode ∧
        objectKeysAnnotated t' ∧
        (∀ k f', AssocMap.lookup t'.fields k = some f' →
          ∃ f, AssocMap.lookup t.fields k = some f ∧ fieldEvolution f f')) := by
  unfold annotateSchemaForEntry at h
  cases hl : AssocMap.lookup schema.types nm with
  | none =>
    simp only [hl] at h
    exact Option.noConfusion h
  | some t0 =>
    simp only [hl] at h
    by_cases hk : t0.kind = TypeDefKind.objectType
    · rw [if_pos hk] at h
      cases hko : annotateObjectTypeKeys
          { t0 with federation := { t0.federation with serviceName := e.serviceName } } with
      | none =>
        simp only [hko] at h
        exact Option.noConfusion h
      | some t2 =>
        simp only [hko] at h
        cases hfp : annotateFieldsProvides t2.fields with
        | none =>
          simp only [hfp] at h
          exact Option.noConfusion h
        | some fs =>
          simp only [hfp] at h
          cases hxf : annotateExtensionFields { t2 with fields := fs }
              e.extensionFieldsToOwningServiceMap with
          | none =>
            simp only [hxf] at h
            exact Option.noConfusion h
          | some t3 =>
            simp only [hxf] at h
            injection h with h
            rw [← h]
            obtain ⟨hf2, hk2, ha2, hkeys2⟩ :=
              annotateObjectTypeKeys_anatomy _ t2 hko
            obtain ⟨hk3, ha3, hfed3, hfl3⟩ :=
              annotateExtensionFields_anatomy _ _ _ hxf
            have hfed3' : t3.federation = t2.federation := hfed3
            have ha3' : t3.astNode = t2.astNode := ha3
            have ha2' : t2.astNode = t0.astNode := ha2
            have hkeys2' : t2.federation.keys =
                some ((findDirectivesOnTypeOrField
                  (t0.astNode.map TypeDefinitionNode.directives) "key").filterMap
                    usableKeySelection) := hkeys2
            constructor
            · intro n hn
              exact AssocMap.lookup_insert_ne _ _ _ _ hn
            · intro t' ht'
              rw [AssocMap.lookup_insert_self] at ht'
              injection ht' with ht'
              refine ⟨t0, rfl, ?_, ?_, ?_, ?_⟩
              · rw [← ht', hk3]
                exact hk2
              · rw [← ht', ha3]
                exact ha2
              · intro hobj
                rw [← ht'] at hobj ⊢
                rw [hfed3', ha3', ha2']
                exact hkeys2'
              · rw [← ht']
                intro kf f' hf'
                obtain ⟨fmid, hfmid, hev2⟩ := hfl3 kf f' hf'
                obtain ⟨f1, hf1, hev1⟩ :=
                  annotateFieldsProvides_anatomy t2.fields fs hfp kf fmid hfmid
                rw [hf2] at hf1
                exact ⟨f1, hf1, fieldEvolution_trans f1 fmid f' hev1 hev2⟩
    · rw [if_neg hk] at h
      cases hxf : annotateExtensionFields
          { t0 with federation := { t0.federation with serviceName := e.serviceName } }
          e.extensionFieldsToOwningServiceMap with
      | none =>
        simp only [hxf] at h
        exact Option.noConfusion h
      | some t3 =>
        simp only [hxf] at h
        injection h with h
        rw [← h]
        obtain ⟨hk3, ha3, hfed3, hfl3⟩ := annotateExtensionFields_anatomy _ _ _ hxf
        constructor
        · intro n hn
          exact AssocMap.lookup_insert_ne _ _ _ _ hn
        · intro t' ht'
          rw [AssocMap.lookup_insert_self] at ht'
          injection ht' with ht'
          refine ⟨t0, rfl, ?_, ?_, ?_, ?_⟩
          · rw [← ht']
            exact hk3
          · rw [← ht']
            exact ha3
          · intro hobj
            rw [← ht', hk3] at hobj
            exact absurd hobj hk
          · rw [← ht']
            exact hfl3

theorem fieldDirectiveClean_of_evolution (f f' : GraphQLField)
    (hc : fieldDirectiveClean f) (he : fieldEvolution f f') :
    fieldDirectiveClean f' := by
  obtain ⟨cp, cr⟩ := hc
  obtain ⟨ha, hp, hr⟩ := he
  constructor
  · intro hd
    rw [ha] at hd
    rw [hp hd, cp hd]
  · intro hd
    rw [ha] at hd
    rw [hr hd, cr hd]

theorem annotateEntries_preserves_keys (es : AssocMap TypeToServiceEntry) :
    ∀ schema schema', addFederationMetadataToSchemaNodes schema es = some schema' →
      ∀ n, (∀ t', AssocMap.lookup schema.types n = some t' → objectKeysAnnotated t') →
        ∀ t', AssocMap.lookup schema'.types n = some t' → objectKeysAnnotated t' := by
  induction es with
  | nil =>
    intro schema schema' h n hn t' ht'
    unfold addFederationMetadataToSchemaNodes at h
    injection h with h
    rw [← h] at ht'
    exact hn t' ht'
  | cons kv rest ih =>
    obtain ⟨nm, e⟩ := kv
    intro schema schema' h n hn t' ht'
    unfold addFederationMetadataToSchemaNodes at h
    cases hstep : annotateSchemaForEntry schema nm e with
    | none =>
      simp only [hstep] at h
      exact Option.noConfusion h
    | some schema2 =>
      simp only [hstep] at h
      obtain ⟨hother, hat⟩ := annotateEntry_anatomy schema nm e schema2 hstep
      refine ih schema2 schema' h n ?_ t' ht'
      intro t'' ht''
      by_cases hn2 : n = nm
      · subst hn2
        obtain ⟨t, _, _, _, hOKA, _⟩ := hat t'' ht''
        exact hOKA
      · rw [hother n hn2] at ht''
        exact hn t'' ht''

theorem annotateEntries_established_keys (es : AssocMap TypeToServiceEntry) :
    ∀ schema schema', addFederationMetadataToSchemaNodes schema es = some schema' →
      ∀ nm e, (nm, e) ∈ es →
        ∀ t', AssocMap.lookup schema'.types nm = some t' → objectKeysAnnotated t' := by
  induction es with
  | nil =>
    intro schema schema' h nm e hmem
    cases hmem
  | cons kv rest ih =>
    obtain ⟨nm0, e0⟩ := kv
    intro schema schema' h nm e hmem t' ht'
    unfold addFederationMetadataToSchemaNodes at h
    cases hstep : annotateSchemaForEntry schema nm0 e0 with
    | none =>
      simp only [hstep] at h
      exact Option.noConfusion h
    | some schema2 =>
      simp only [hstep] at h
      rcases List.mem_cons.mp hmem with heq | hmem'
      · have hnmeq : nm = nm0 := congrArg Prod.fst heq
        subst hnmeq
        refine annotateEntries_preserves_keys rest schema2 schema' h nm ?_ t' ht'
        intro t'' ht''
        obtain ⟨t, _, _, _, hOKA, _⟩ :=
          (annotateEntry_anatomy schema nm e0 schema2 hstep).2 t'' ht''
        exact hOKA
      · exact ih schema2 schema' h nm e hmem' t' ht'

theorem annotateEntries_clean (es : AssocMap TypeToServiceEntry) :
    ∀ schema schema', addFederationMetadataToSchemaNodes schema es = some schema' →
      (∀ n t, AssocMap.lookup schema.types n = some t →
         ∀ k f, AssocMap.lookup t.fields k = some f → fieldDirectiveClean f) →
      ∀ n t, AssocMap.lookup schema'.types n = some t →
        ∀ k f, AssocMap.lookup t.fields k = some f → fieldDirectiveClean f := by
  induction es with
  | nil =>
    intro schema schema' h hclean n t ht
    unfold addFederationMetadataToSchemaNodes at h
    injection h with h
    rw [← h] at ht
    exact hclean n t ht
  | cons kv rest ih =>
    obtain ⟨nm, e⟩ := kv
    intro schema schema' h hclean n t ht
    unfold addFederationMetadataToSchemaNodes at h
    cases hstep : annotateSchemaForEntry schema nm e with
    | none =>
      simp only [hstep] at h
      exact Option.noConfusion h
    | some schema2 =>
      simp only [hstep] at h
      obtain ⟨hother, hat⟩ := annotateEntry_anatomy schema nm e schema2 hstep
      refine ih schema2 schema' h ?_ n t ht
      intro n2 t2 ht2 k2 f2 hf2
      by_cases hn2 : n2 = nm
      · subst hn2
        obtain ⟨t1, ht1, _, _, _, hflds⟩ := hat t2 ht2
        obtain ⟨f1, hf1, hev⟩ := hflds k2 f2 hf2
        exact fieldDirectiveClean_of_evolution f1 f2 (hclean n2 t1 ht1 k2 f1 hf1) hev
      · rw [hother n2 hn2] at ht2
        exact hclean n2 t2 ht2 k2 f2 hf2

theorem insertFields_fresh (fs : List FieldDefinitionNode) :
    ∀ m, (∀ k f, AssocMap.lookup m k = some f → fieldFresh f) →
      ∀ k f, AssocMap.lookup (insertFields m fs) k = some f → fieldFresh f := by
  induction fs with
  | nil => intro m hm; exact hm
  | cons fd rest ih =>
    intro m hm
    have hstep : insertFields m (fd :: rest) =
        insertFields (AssocMap.insert m fd.name (fieldFromFieldDefinition fd)) rest := rfl
    rw [hstep]
    apply ih
    intro k f hk
    rw [AssocMap.lookup_insert] at hk
    by_cases hkf : k = fd.name
    · rw [if_pos hkf] at hk
      injection hk with hk
      rw [← hk]
      exact ⟨rfl, rfl⟩
    · rw [if_neg hkf] at hk
      exact hm k f hk

theorem extendDefs_types_fresh (defs : List TypeDefinitionNode) :
    ∀ (init : AssocMap GraphQLNamedType),
      (∀ n t, AssocMap.lookup init n = some t →
         ∀ k f, AssocMap.lookup t.fields k = some f → fieldFresh f) →
      ∀ n t, AssocMap.lookup
          (defs.foldl (fun ts node => AssocMap.insert ts node.name (typeFromDefinition node)) init)
          n = some t →
        ∀ k f, AssocMap.lookup t.fields k = some f → fieldFresh f := by
  induction defs with
  | nil => intro init hinit; exact hinit
  | cons d rest ih =>
    intro init hinit
    rw [List.foldl_cons]
    apply ih
    intro n t ht
    rw [AssocMap.lookup_insert] at ht
    by_cases hn : n = d.name
    · rw [if_pos hn] at ht
      injection ht with ht
      rw [← ht]
      apply insertFields_fresh
      intro k f hk
      cases hk
    · rw [if_neg hn] at ht
      exact hinit n t ht

theorem extendExts_types_fresh (exts : List TypeExtensionNode) :
    ∀ (ts : AssocMap GraphQLNamedType),
      (∀ n t, AssocMap.lookup ts n = some t →
         ∀ k f, AssocMap.lookup t.fields k = some f → fieldFresh f) →
      ∀ n t, AssocMap.lookup (exts.foldl applyExtension ts) n = some t →
        ∀ k f, AssocMap.lookup t.fields k = some f → fieldFresh f := by
  induction exts with
  | nil => intro ts hts; exact hts
  | cons e rest ih =>
    intro ts hts
    rw [List.foldl_cons]
    apply ih
    intro n t ht
    unfold applyExtension at ht
    cases hl : AssocMap.lookup ts e.name with
    | none =>
      rw [hl] at ht
      exact hts n t ht
    | some t0 =>
      rw [hl] at ht
      rw [AssocMap.lookup_insert] at ht
      by_cases hn : n = e.name
      · rw [if_pos hn] at ht
        injection ht with ht
        rw [← ht]
        apply insertFields_fresh
        exact hts e.name t0 hl
      · rw [if_neg hn] at ht
        exact hts n t ht

theorem buildSchema_types_fresh (dm : AssocMap (List TypeDefinitionNode))
    (em : AssocMap (List TypeExtensionNode)) :
    ∀ n t, AssocMap.lookup
        (buildSchemaFromDefinitionsAndExtensions dm em).schema.types n = some t →
      ∀ k f, AssocMap.lookup t.fields k = some f → fieldFresh f := by
  show ∀ n t, AssocMap.lookup
      ((flattenValues em).foldl applyExtension
        ((flattenValues dm).foldl
          (fun ts node => AssocMap.insert ts node.name (typeFromDefinition node))
          initialComposedSchema.types)) n = some t →
    ∀ k f, AssocMap.lookup t.fields k = some f → fieldFresh f
  apply extendExts_types_fresh
  apply extendDefs_types_fresh
  intro n t ht
  cases ht

/-- Claim C10 (confirmed): whenever the composition pipeline completes, every
object type named in the Ownership Ledger carries `federation.keys` as a
defined list — exactly the selection sets of the usable `key` occurrences on
its AST node, hence the empty list whenever no usable occurrence exists
(none at all, or only occurrences without an `arguments` list or with a
non-string first argument) — while a field's `federation.provides` and
`federation.requires` are left entirely unset whenever the corresponding
directive is absent from the field's AST node. -/
theorem annotator_metadata_shape
    (services : List ServiceDefinition) (maps : ServiceMaps) (r : SchemaAndErrors)
    (hm : buildMapsFromServiceList services = some maps)
    (hc : composeServices services = some r) :
    (∀ name entry, AssocMap.lookup maps.typeToServiceMap name = some entry →
       ∀ t, AssocMap.lookup r.schema.types name = some t →
         t.kind = .objectType →
           t.federation.keys =
             some ((findDirectivesOnTypeOrField
               (t.astNode.map TypeDefinitionNode.directives) "key").filterMap
                 usableKeySelection) ∧
           ((∀ d ∈ findDirectivesOnTypeOrField
               (t.astNode.map TypeDefinitionNode.directives) "key",
               usableKeySelection d = none) →
             t.federation.keys = some [])) ∧
    (∀ name t, AssocMap.lookup r.schema.types name = some t →
       ∀ fname f, AssocMap.lookup t.fields fname = some f → fieldDirectiveClean f) := by
  unfold composeServices at hc
  rw [hm] at hc
  cases han : addFederationMetadataToSchemaNodes
      (buildSchemaFromDefinitionsAndExtensions maps.definitionsMap
        maps.extensionsMap).schema
      maps.typeToServiceMap with
  | none =>
    simp only [han] at hc
    exact Option.noConfusion hc
  | some schema' =>
    simp only [han] at hc
    injection hc with hc
    have hr : r.schema = schema' := by rw [← hc]
    constructor
    · intro name entry hentry t ht hobj
      rw [hr] at ht
      have hmem := AssocMap.lookup_mem maps.typeToServiceMap name entry hentry
      have heq := annotateEntries_established_keys maps.typeToServiceMap _ schema' han
        name entry hmem t ht hobj
      refine ⟨heq, ?_⟩
      intro hnone
      rw [heq]
      exact congrArg some (filterMap_eq_nil_of_forall_none usableKeySelection _ hnone)
    · intro name t ht fname f hf
      rw [hr] at ht
      refine annotateEntries_clean maps.typeToServiceMap _ schema' han ?_ name t ht fname f hf
      intro n t0 ht0 k f0 hf0
      obtain ⟨hp, hq⟩ := buildSchema_types_fresh maps.definitionsMap maps.extensionsMap
        n t0 ht0 k f0 hf0
      exact ⟨fun _ => hp, fun _ => hq⟩

/-- Witness for C10: on the spec's `Product`/`@key(fields: "sku")` scenario
the composed `Product` type's `federation.keys` is the one-element list
`[["sku"]]` — the selection set of its single usable `key` occurrence. -/
theorem annotator_metadata_shape_witness :
    c10ProductType.federation.keys = some [["sku"]] :=
  (((annotator_metadata_shape c10Services c10Maps c10Result (by rfl) (by rfl)).1
      "Product" c10Entry (by rfl) c10ProductType (by rfl) (by rfl)).1).trans (by rfl)

end ApolloFederation
